import Mathlib

/-!
Verification development for the masca chess engine core.

This file gives a shallow embedding, in Lean 4, of the parts of the engine
that the specification talks about: the 16-bit move encoding (moves.rs), the
bitboard primitives (bitboard.rs), the move-list container and the move
generator (movegen.rs), the board representation with make/unmake and the FEN
parser (board.rs), the leaper attack tables (attack.rs), the magic-bitboard
construction (magics.rs), and the perft driver (perft.rs).

Machine integers are embedded as `Nat` with explicit `% 2^w` where wrapping
matters (u64, u32, u8 arithmetic).  Squares are embedded as plain `Nat`
indices 0..63 (the Rust `Square` enum is `repr(u8)` with the same values).
Rust panics (out-of-bounds indexing, `unreachable!()`) are modelled either by
an explicit `crash` outcome (FEN parsing, where the claims are about panics)
or by `Option` (`MoveList.push`).  Rust code whose undefined behaviour is
excluded by the claims' hypotheses (`unwrap_unchecked` on a square known to
be occupied) is modelled with a junk default value.
-/

set_option maxRecDepth 10000

/-- The two sides, `types.rs` `Color` (White = 0, Black = 1). -/
inductive Color where
  | White : Color
  | Black : Color
deriving DecidableEq, Repr

/-- `impl Not for Color`: the opponent. -/
def Color.flip : Color → Color
  | .White => .Black
  | .Black => .White

/-- `Color as usize` (the `repr(u8)` discriminant). -/
def Color.toNat : Color → Nat
  | .White => 0
  | .Black => 1

/-- The six piece kinds, `types.rs` `PieceType` (Pawn = 0 .. King = 5). -/
inductive PieceType where
  | Pawn : PieceType
  | Knight : PieceType
  | Bishop : PieceType
  | Rook : PieceType
  | Queen : PieceType
  | King : PieceType
deriving DecidableEq, Repr

/-- The `repr(u8)` discriminant of `PieceType`. -/
def PieceType.toNat : PieceType → Nat
  | .Pawn => 0
  | .Knight => 1
  | .Bishop => 2
  | .Rook => 3
  | .Queen => 4
  | .King => 5

/-- `types.rs` `Piece`: the twelve colored pieces, embedded by their
`repr(u8)` discriminant 0..11 (WhitePawn = 0 .. BlackKing = 11). -/
def Piece : Type := Fin 12
deriving DecidableEq

/-- `Piece::new(color, piece_type)`: `color as u8 * 6 + piece_type as u8`. -/
def Piece.new (c : Color) (t : PieceType) : Piece :=
  ⟨c.toNat * 6 + t.toNat, by cases c <;> cases t <;> decide⟩

/-- `Piece::get_color`: discriminant divided by 6. -/
def Piece.get_color (p : Piece) : Color :=
  if p.val / 6 = 0 then .White else .Black

/-- `Piece::get_type`: discriminant modulo 6 (the `match` in `types.rs`). -/
def Piece.get_type (p : Piece) : PieceType :=
  match h : p.val % 6 with
  | 0 => .Pawn
  | 1 => .Knight
  | 2 => .Bishop
  | 3 => .Rook
  | 4 => .Queen
  | 5 => .King
  | n + 6 => absurd h (by have := Nat.mod_lt p.val (show 0 < 6 by decide); omega)

/-- `Piece::from_char`.  The Rust `match` ends in `unreachable!()`; the
`none` result models that panic. -/
def Piece.from_char (ch : Char) : Option Piece :=
  if ch = 'P' then some (Piece.new .White .Pawn)
  else if ch = 'N' then some (Piece.new .White .Knight)
  else if ch = 'B' then some (Piece.new .White .Bishop)
  else if ch = 'R' then some (Piece.new .White .Rook)
  else if ch = 'Q' then some (Piece.new .White .Queen)
  else if ch = 'K' then some (Piece.new .White .King)
  else if ch = 'p' then some (Piece.new .Black .Pawn)
  else if ch = 'n' then some (Piece.new .Black .Knight)
  else if ch = 'b' then some (Piece.new .Black .Bishop)
  else if ch = 'r' then some (Piece.new .Black .Rook)
  else if ch = 'q' then some (Piece.new .Black .Queen)
  else if ch = 'k' then some (Piece.new .Black .King)
  else none

/-- `Square::bb()` on a square index: `1u64 << sq`. -/
def sqBB (sq : Nat) : Nat := 1 <<< sq

/-- Bitwise complement on 64-bit words, `impl Not for Bitboard`. -/
def bnot64 (b : Nat) : Nat := b ^^^ 0xFFFFFFFFFFFFFFFF

/-- `u64::count_ones` for values below `2^64`. -/
def popcount64 (b : Nat) : Nat := (List.range 64).countP (fun i => b.testBit i)

/-- Helper for `u64::trailing_zeros`: scan bit indices `i, i+1, ...` for at
most `fuel` steps, returning the first set bit index or `i + fuel`. -/
def tzFrom (b : Nat) : Nat → Nat → Nat
  | i, 0 => i
  | i, fuel + 1 => if b.testBit i then i else tzFrom b (i + 1) fuel

/-- `u64::trailing_zeros` for values below `2^64` (returns 64 on 0). -/
def trailing_zeros (b : Nat) : Nat := tzFrom b 0 64

/-- `Bitboard::lsb` (`bitboard.rs`): just `trailing_zeros`. -/
def Bitboard.lsb (b : Nat) : Nat := trailing_zeros b

/-- `Bitboard::pop_lsb` (`bitboard.rs`): returns the popped index and the
new bitboard value.  `self.0 &= self.0 - 1` is a u64 wrapping subtraction in
release mode; on `b = 0` it underflows (panic in debug builds), which is why
non-emptiness is a precondition. -/
def Bitboard.pop_lsb (b : Nat) : Nat × Nat :=
  (trailing_zeros b, b &&& ((b + 0xFFFFFFFFFFFFFFFF) % 2 ^ 64))

/-- The 14 move kinds of `moves.rs` `MoveType` (4-bit tags). -/
inductive MoveType where
  | Normal : MoveType
  | DoublePush : MoveType
  | KingCastle : MoveType
  | QueenCastle : MoveType
  | Capture : MoveType
  | EnPassant : MoveType
  | PromotionN : MoveType
  | PromotionB : MoveType
  | PromotionR : MoveType
  | PromotionQ : MoveType
  | PromotionCaptureN : MoveType
  | PromotionCaptureB : MoveType
  | PromotionCaptureR : MoveType
  | PromotionCaptureQ : MoveType
deriving DecidableEq, Repr, Fintype

/-- The `repr(u8)` tag values assigned in `moves.rs`. -/
def MoveType.toNat : MoveType → Nat
  | .Normal => 0b0000
  | .DoublePush => 0b0001
  | .KingCastle => 0b0010
  | .QueenCastle => 0b0011
  | .Capture => 0b0100
  | .EnPassant => 0b0101
  | .PromotionN => 0b1000
  | .PromotionB => 0b1001
  | .PromotionR => 0b1010
  | .PromotionQ => 0b1011
  | .PromotionCaptureN => 0b1100
  | .PromotionCaptureB => 0b1101
  | .PromotionCaptureR => 0b1110
  | .PromotionCaptureQ => 0b1111

/-- Inverse of the tag assignment, modelling the `transmute` in
`Move::get_type`; `none` on the two unused tags 0b0110 and 0b0111 (there the
`transmute` would be undefined behaviour). -/
def MoveType.fromTag (n : Nat) : Option MoveType :=
  if n = 0b0000 then some .Normal
  else if n = 0b0001 then some .DoublePush
  else if n = 0b0010 then some .KingCastle
  else if n = 0b0011 then some .QueenCastle
  else if n = 0b0100 then some .Capture
  else if n = 0b0101 then some .EnPassant
  else if n = 0b1000 then some .PromotionN
  else if n = 0b1001 then some .PromotionB
  else if n = 0b1010 then some .PromotionR
  else if n = 0b1011 then some .PromotionQ
  else if n = 0b1100 then some .PromotionCaptureN
  else if n = 0b1101 then some .PromotionCaptureB
  else if n = 0b1110 then some .PromotionCaptureR
  else if n = 0b1111 then some .PromotionCaptureQ
  else none

/-- `moves.rs` `Move`: the 16-bit encoding, embedded as a `Nat` below
`2^16`.  Bits 0-5 origin, 6-11 destination, 12-15 kind tag. -/
abbrev Move := Nat

/-- `Move::NULL_MOVE`. -/
def Move.NULL : Move := (0 : Nat)

/-- `Move::new_normal(from, to)`. -/
def Move.new_normal (fromSq toSq : Nat) : Move :=
  fromSq ||| (toSq <<< 6)

/-- `Move::new_special(from, to, movetype)`. -/
def Move.new_special (fromSq toSq : Nat) (k : MoveType) : Move :=
  fromSq ||| (toSq <<< 6) ||| (k.toNat <<< 12)

/-- `Move::from_square`: `encoding & 0x3F`. -/
def Move.from_square (m : Move) : Nat := (m : Nat) &&& 0x3F

/-- `Move::to_square`: `(encoding >> 6) & 0x3F`. -/
def Move.to_square (m : Move) : Nat := ((m : Nat) >>> 6) &&& 0x3F

/-- `Move::is_capture`: `(encoding & 0x4000) != 0`. -/
def Move.is_capture (m : Move) : Bool := (m : Nat) &&& 0x4000 ≠ 0

/-- `Move::is_promotion`: `(encoding & 0x8000) != 0`. -/
def Move.is_promotion (m : Move) : Bool := (m : Nat) &&& 0x8000 ≠ 0

/-- `Move::get_type`: transmutes the 4-bit tag (see `MoveType.ofNat`). -/
def Move.get_type (m : Move) : Option MoveType := MoveType.fromTag ((m : Nat) >>> 12)

/-- `Move::is_quiet`: `(encoding & 0xF000) == 0`. -/
def Move.is_quiet (m : Move) : Bool := (m : Nat) &&& 0xF000 = 0

/-- `Move::is_castling`: `(encoding & 0xE000) == 0x2000`. -/
def Move.is_castling (m : Move) : Bool := (m : Nat) &&& 0xE000 = 0x2000

/-- `Move::is_enpassant`: `(encoding & 0xF000) == 0x5000`. -/
def Move.is_enpassant (m : Move) : Bool := (m : Nat) &&& 0xF000 = 0x5000

/-- `Move::is_double_push`: `(encoding & 0xF000) == 0x1000`. -/
def Move.is_double_push (m : Move) : Bool := (m : Nat) &&& 0xF000 = 0x1000

/-- `Move::get_promotion_piece`: `(encoding >> 12) & 0b11` read as
knight/bishop/rook/queen. -/
def Move.get_promotion_piece (m : Move) : PieceType :=
  match ((m : Nat) >>> 12) &&& 0b11 with
  | 0 => .Knight
  | 1 => .Bishop
  | 2 => .Rook
  | _ => .Queen

/-! ## Board representation (`board.rs`) -/

/-- Castling-rights bits, `board.rs` `WK`/`WQ`/`BK`/`BQ`. -/
def WK : Nat := 0b0001

/-- White queen-side castling bit. -/
def WQ : Nat := 0b0010

/-- Black king-side castling bit. -/
def BK : Nat := 0b0100

/-- Black queen-side castling bit. -/
def BQ : Nat := 0b1000

/-- `board.rs` `State`: the incremental per-ply frame pushed on the state
stack. -/
structure State where
  castling : Nat
  en_passant : Option Nat
  halfmove : Nat
  captured : Option Piece
  zobrist : Nat
deriving DecidableEq

/-- `State::default()`. -/
def State.dflt : State :=
  { castling := 0, en_passant := none, halfmove := 0, captured := none, zobrist := 0 }

/-- `board.rs` `Board` (minus the immutable attack tables, which are passed
separately to the functions that read them).  The mailbox, the per-kind and
per-color bitboards, and the state stack are modelled as total functions;
only indices 0..63 (resp. 0..127) are ever used by the embedded code. -/
structure BoardState where
  mailbox : Nat → Option Piece
  pieces : PieceType → Nat
  colors : Color → Nat
  side_to_move : Color
  state_stack : Nat → State
  state_idx : Nat

/-- `Board::default()`. -/
def BoardState.dflt : BoardState :=
  { mailbox := fun _ => none, pieces := fun _ => 0, colors := fun _ => 0,
    side_to_move := .White, state_stack := fun _ => State.dflt, state_idx := 0 }

/-- `Board::piece_on_unchecked`: `unwrap_unchecked` is undefined behaviour
on an empty square; the junk default stands in for that (every claim that
relies on this function guarantees the square is occupied). -/
def piece_on_unchecked (b : BoardState) (sq : Nat) : Piece :=
  (b.mailbox sq).getD (Piece.new .White .Pawn)

/-- `Board::occupied_squares`. -/
def occupied_squares (b : BoardState) : Nat := b.colors .White ||| b.colors .Black

/-- `Board::empty_squares`. -/
def empty_squares (b : BoardState) : Nat := bnot64 (b.colors .White ||| b.colors .Black)

/-- `Board::en_passant_square`. -/
def en_passant_square (b : BoardState) : Option Nat :=
  (b.state_stack b.state_idx).en_passant

/-- `Board::castling_rights`. -/
def castling_rights (b : BoardState) : Nat :=
  (b.state_stack b.state_idx).castling

/-- The rook relocation of a castling move, the `match to` in steps 5/6 of
`make_move`/`unmake_move` (G1: H1→F1, C1: A1→D1, G8: H8→F8, C8: A8→D8).
The Rust `match` panics (`unreachable!()`) on any other destination; the
final arm here absorbs it, and every castling move built by the move
generator has one of the four listed destinations. -/
def castleRookSquares (toSq : Nat) : Nat × Nat :=
  if toSq = 6 then (7, 5)
  else if toSq = 2 then (0, 3)
  else if toSq = 62 then (63, 61)
  else (56, 59)

/-- `Board::make_move` (`board.rs` lines 56-164), translated statement by
statement; the numbered comments match the source.  The state stack is a
total function, so the `debug_assert!(state_idx < MAX_PLY)` overflow is not
modelled (claims about make/unmake stay below the 128-frame capacity). -/
def make_move (b : BoardState) (m : Move) : BoardState :=
  let fromSq := m.from_square
  let toSq := m.to_square
  let us := b.side_to_move
  let them := us.flip
  -- 1 - prepare state change variables
  let newstate_castling0 := (b.state_stack b.state_idx).castling
  -- 2 - remove from origin
  let moved_piece := piece_on_unchecked b fromSq
  let moved_type := moved_piece.get_type
  let b1 : BoardState :=
    { b with
      mailbox := Function.update b.mailbox fromSq none,
      pieces := Function.update b.pieces moved_type (b.pieces moved_type ^^^ sqBB fromSq),
      colors := Function.update b.colors us (b.colors us ^^^ sqBB fromSq) }
  -- 3 - handle capture
  let cap : BoardState × Option Piece :=
    if m.is_enpassant then
      let captured_sq := if us = Color.White then toSq - 8 else toSq + 8
      let captured_piece := piece_on_unchecked b1 captured_sq
      ({ b1 with
         mailbox := Function.update b1.mailbox captured_sq none,
         pieces := Function.update b1.pieces PieceType.Pawn (b1.pieces .Pawn ^^^ sqBB captured_sq),
         colors := Function.update b1.colors them (b1.colors them ^^^ sqBB captured_sq) },
       some captured_piece)
    else if m.is_capture then
      let captured_piece := piece_on_unchecked b1 toSq
      ({ b1 with
         pieces := Function.update b1.pieces captured_piece.get_type
           (b1.pieces captured_piece.get_type ^^^ sqBB toSq),
         colors := Function.update b1.colors them (b1.colors them ^^^ sqBB toSq) },
       some captured_piece)
    else (b1, none)
  let b2 := cap.1
  let newstate_captured := cap.2
  let newstate_halfmove :=
    if moved_type = PieceType.Pawn ∨ m.is_capture = true ∨ m.is_enpassant = true then 0
    else (b.state_stack b.state_idx).halfmove + 1
  -- 4 - handle destination square
  let b3 : BoardState :=
    if m.is_promotion then
      let promoted_type := m.get_promotion_piece
      let promoted_piece := Piece.new us promoted_type
      { b2 with
        mailbox := Function.update b2.mailbox toSq (some promoted_piece),
        pieces := Function.update b2.pieces promoted_type (b2.pieces promoted_type ^^^ sqBB toSq) }
    else
      { b2 with
        mailbox := Function.update b2.mailbox toSq (some moved_piece),
        pieces := Function.update b2.pieces moved_type (b2.pieces moved_type ^^^ sqBB toSq) }
  let b4 : BoardState := { b3 with colors := Function.update b3.colors us (b3.colors us ^^^ sqBB toSq) }
  -- 5 - castling
  let b5 : BoardState :=
    if m.is_castling then
      let rk := castleRookSquares toSq
      let rook := piece_on_unchecked b4 rk.1
      { b4 with
        mailbox := Function.update (Function.update b4.mailbox rk.1 none) rk.2 (some rook),
        pieces := Function.update b4.pieces PieceType.Rook
          (b4.pieces .Rook ^^^ (sqBB rk.1 ||| sqBB rk.2)),
        colors := Function.update b4.colors us (b4.colors us ^^^ (sqBB rk.1 ||| sqBB rk.2)) }
    else b4
  -- 6 - update castling rights (branchless in the source: `(cond as u8) * bits`
  --     then u8 complement; `if cond then bits else 0` is that product)
  let cmask : Nat := 0xFF
      &&& ((if fromSq = 4 then WK ||| WQ else 0) ^^^ 0xFF)
      &&& ((if fromSq = 60 then BK ||| BQ else 0) ^^^ 0xFF)
      &&& ((if fromSq = 7 ∨ toSq = 7 then WK else 0) ^^^ 0xFF)
      &&& ((if fromSq = 0 ∨ toSq = 0 then WQ else 0) ^^^ 0xFF)
      &&& ((if fromSq = 63 ∨ toSq = 63 then BK else 0) ^^^ 0xFF)
      &&& ((if fromSq = 56 ∨ toSq = 56 then BQ else 0) ^^^ 0xFF)
  let newstate_castling := newstate_castling0 &&& cmask
  -- 7 - handle double push
  let newstate_en_passant :=
    if m.is_double_push then some (if us = Color.White then toSq - 8 else toSq + 8)
    else (none : Option Nat)
  -- 9 - push new state (copy the old frame forward, then overwrite)
  let old_state := b5.state_stack b5.state_idx
  let new_state : State :=
    { old_state with
      en_passant := newstate_en_passant, captured := newstate_captured,
      castling := newstate_castling, halfmove := newstate_halfmove }
  let b6 : BoardState :=
    { b5 with
      state_stack := Function.update b5.state_stack (b5.state_idx + 1) new_state,
      state_idx := b5.state_idx + 1 }
  -- 10 - flip side
  { b6 with side_to_move := b6.side_to_move.flip }

/-- `Board::unmake_move` (`board.rs` lines 169-217), translated statement by
statement.  Note the promotion arm of step 5: the source reconstructs the
pawn as `Piece::new(!self.side_to_move, Pawn)` *after* the side has already
been flipped back, so the reconstructed pawn carries the opponent color. -/
def unmake_move (b : BoardState) (m : Move) : BoardState :=
  let fromSq := m.from_square
  let toSq := m.to_square
  let moved_piece := piece_on_unchecked b toSq
  -- 1 - flip side
  let b1 : BoardState := { b with side_to_move := b.side_to_move.flip }
  let us := b1.side_to_move
  let them := us.flip
  -- 2 - pop state
  let state := b1.state_stack b1.state_idx
  let b2 : BoardState := { b1 with state_idx := b1.state_idx - 1 }
  -- 3 - undo destination square
  let b3 : BoardState :=
    { b2 with
      pieces := Function.update b2.pieces moved_piece.get_type
        (b2.pieces moved_piece.get_type ^^^ sqBB toSq),
      colors := Function.update b2.colors us (b2.colors us ^^^ sqBB toSq),
      mailbox := Function.update b2.mailbox toSq none }
  -- 4 - restore captured piece
  let b4 : BoardState :=
    match state.captured with
    | some captured =>
      let captured_sq :=
        if m.is_enpassant then (if us = Color.White then toSq - 8 else toSq + 8) else toSq
      { b3 with
        mailbox := Function.update b3.mailbox captured_sq (some captured),
        pieces := Function.update b3.pieces captured.get_type
          (b3.pieces captured.get_type ^^^ sqBB captured_sq),
        colors := Function.update b3.colors them (b3.colors them ^^^ sqBB captured_sq) }
    | none => b3
  -- 5 - restore origin square (`Piece::new(!self.side_to_move, Pawn)`)
  let moved_piece2 :=
    if m.is_promotion then Piece.new us.flip PieceType.Pawn else moved_piece
  let b5 : BoardState :=
    { b4 with
      mailbox := Function.update b4.mailbox fromSq (some moved_piece2),
      pieces := Function.update b4.pieces moved_piece2.get_type
        (b4.pieces moved_piece2.get_type ^^^ sqBB fromSq),
      colors := Function.update b4.colors us (b4.colors us ^^^ sqBB fromSq) }
  -- 6 - undo castling
  if m.is_castling then
    let rk := castleRookSquares toSq
    let rook := piece_on_unchecked b5 rk.2
    { b5 with
      mailbox := Function.update (Function.update b5.mailbox rk.2 none) rk.1 (some rook),
      pieces := Function.update b5.pieces PieceType.Rook
        (b5.pieces .Rook ^^^ (sqBB rk.1 ||| sqBB rk.2)),
      colors := Function.update b5.colors us (b5.colors us ^^^ (sqBB rk.1 ||| sqBB rk.2)) }
  else b5

/-! ## Leaper attack tables (`attack.rs`) -/

/-- `attack.rs` `KNIGHT_DELTAS`. -/
def KNIGHT_DELTAS : List (Int × Int) :=
  [(2, 1), (2, -1), (1, 2), (1, -2), (-1, 2), (-1, -2), (-2, 1), (-2, -1)]

/-- `attack.rs` `KING_DELTAS`. -/
def KING_DELTAS : List (Int × Int) :=
  [(0, 1), (1, 1), (1, 0), (1, -1), (0, -1), (-1, -1), (-1, 0), (-1, 1)]

/-- The per-square leaper construction of `AttackTables::new`: set a bit for
each delta that stays on the board. -/
def leaperTable (deltas : List (Int × Int)) (sq : Nat) : Nat :=
  deltas.foldl (fun acc d =>
    let to_rank : Int := (sq / 8 : Nat) + d.1
    let to_file : Int := (sq % 8 : Nat) + d.2
    if 0 ≤ to_rank ∧ to_rank < 8 ∧ 0 ≤ to_file ∧ to_file < 8 then
      acc ||| sqBB (to_rank * 8 + to_file).toNat
    else acc) 0

/-- `AttackTables.knight[sq]`. -/
def knightTable (sq : Nat) : Nat := leaperTable KNIGHT_DELTAS sq

/-- `AttackTables.king[sq]`. -/
def kingTable (sq : Nat) : Nat := leaperTable KING_DELTAS sq

/-- `AttackTables.pawn_capture[color][sq]` per the loop in `attack.rs`. -/
def pawn_capture (c : Color) (sq : Nat) : Nat :=
  match c with
  | .White =>
    if sq / 8 < 7 then
      (if 0 < sq % 8 then sqBB (sq + 7) else 0) ||| (if sq % 8 < 7 then sqBB (sq + 9) else 0)
    else 0
  | .Black =>
    if 0 < sq / 8 then
      (if 0 < sq % 8 then sqBB (sq - 9) else 0) ||| (if sq % 8 < 7 then sqBB (sq - 7) else 0)
    else 0

/-- `AttackTables.pawn_push[color][sq]`. -/
def pawn_push (c : Color) (sq : Nat) : Nat :=
  match c with
  | .White => if sq / 8 < 7 then sqBB (sq + 8) else 0
  | .Black => if 0 < sq / 8 then sqBB (sq - 8) else 0

/-- `AttackTables.pawn_double_push[color][sq]`. -/
def pawn_double_push (c : Color) (sq : Nat) : Nat :=
  match c with
  | .White => if sq / 8 = 1 then sqBB (sq + 16) else 0
  | .Black => if sq / 8 = 6 then sqBB (sq - 16) else 0

/-! ## Slider attack interface

The rook and bishop attack lookups of `movegen.rs` (`Tor::get_attacks`,
`Alfè::get_attacks`) and `board.rs` (`is_square_attacked`) read the magic
tables built by `magics.rs`: `flat[offset[sq] + ((occ & mask[sq]) * magic[sq]
>> (64 - popcount(mask[sq])))]`.  That lookup is abstracted here as a pair of
functions from square and full occupancy to an attack bitboard; the theorems
about the magic construction (claim C3) state exactly the property assumed of
these functions, namely that the lookup equals the reference ray walk on the
masked occupancy. -/

/-- Slider lookup interface: `rook sq occ`/`bishop sq occ` stand for the
magic-table lookups with full board occupancy `occ`. -/
structure SliderAtt where
  rook : Nat → Nat → Nat
  bishop : Nat → Nat → Nat

/-- `Board::is_square_attacked` (`board.rs`): reverse attack lookup. -/
def is_square_attacked (T : SliderAtt) (b : BoardState) (sq : Nat) (by_ : Color) : Bool :=
  let occupancy := occupied_squares b
  let their_pieces := b.colors by_
  if pawn_capture by_.flip sq &&& (b.pieces .Pawn &&& their_pieces) ≠ 0 then true
  else if knightTable sq &&& (b.pieces .Knight &&& their_pieces) ≠ 0 then true
  else if kingTable sq &&& (b.pieces .King &&& their_pieces) ≠ 0 then true
  else if T.bishop sq occupancy &&& ((b.pieces .Bishop ||| b.pieces .Queen) &&& their_pieces) ≠ 0 then true
  else if T.rook sq occupancy &&& ((b.pieces .Rook ||| b.pieces .Queen) &&& their_pieces) ≠ 0 then true
  else false

/-- `Board::king_in_check`.  On a board with no king of that color the
source's `lsb` returns 64 (a `debug_assert` guards this); the model keeps
the out-of-range index. -/
def king_in_check (T : SliderAtt) (b : BoardState) (color : Color) : Bool :=
  let king_bb := b.pieces .King &&& b.colors color
  is_square_attacked T b (Bitboard.lsb king_bb) color.flip

/-! ## Move generation (`movegen.rs`)

The `while attackers != 0 { let sq = attackers.pop_lsb(); ... }` loops are
embedded as folds over the list of set-bit indices in ascending order, which
is exactly the order `pop_lsb` visits them; 64 steps of fuel suffice for any
64-bit word.  The `MoveList` accumulator of the source is a plain `List Move`
here; the bounded-array behaviour of `MoveList` itself is modelled separately
(see `MoveList` below, claim C9). -/

/-- The set-bit indices of `b` in LSB-first order (the `pop_lsb` loop). -/
def bitIdxList (b : Nat) : Nat → List Nat
  | 0 => []
  | fuel + 1 =>
    if b = 0 then []
    else (Bitboard.pop_lsb b).1 :: bitIdxList (Bitboard.pop_lsb b).2 fuel

/-- Squares of a 64-bit bitboard in `pop_lsb` order. -/
def squaresOf (b : Nat) : List Nat := bitIdxList b 64

/-- `movegen.rs` `generate_moves::<P, WHITE, CAPTURE>`, with the attack set
of `P` passed as the function `att` (cf. the `Attacker` trait). -/
def generate_moves (pt : PieceType) (att : Nat → Nat) (white capture : Bool)
    (b : BoardState) (acc : List Move) : List Move :=
  let us := if white then b.colors .White else b.colors .Black
  let them := if white then b.colors .Black else b.colors .White
  let attackers := b.pieces pt &&& us
  let target_mask := if capture then them else empty_squares b
  (squaresOf attackers).foldl (fun acc fromSq =>
    let attacks := att fromSq &&& target_mask
    (squaresOf attacks).foldl (fun acc toSq =>
      if capture then acc ++ [Move.new_special fromSq toSq .Capture]
      else acc ++ [Move.new_normal fromSq toSq]) acc) acc

/-- `Tor::get_attacks` via the slider interface. -/
def torAtt (T : SliderAtt) (b : BoardState) (fromSq : Nat) : Nat :=
  T.rook fromSq (occupied_squares b)

/-- `Alfè::get_attacks` via the slider interface. -/
def alfeAtt (T : SliderAtt) (b : BoardState) (fromSq : Nat) : Nat :=
  T.bishop fromSq (occupied_squares b)

/-- `Argina::get_attacks`: rook | bishop. -/
def arginaAtt (T : SliderAtt) (b : BoardState) (fromSq : Nat) : Nat :=
  torAtt T b fromSq ||| alfeAtt T b fromSq

/-- `movegen.rs` `generate_pawn_captures::<WHITE>`. -/
def generate_pawn_captures (white : Bool) (b : BoardState) (acc : List Move) : List Move :=
  let our_color := if white then Color.White else Color.Black
  let pawns := b.pieces .Pawn &&& b.colors our_color
  let them := if white then b.colors .Black else b.colors .White
  let promotion_rank : Nat := if white then 0xFF00000000000000 else 0x00000000000000FF
  let ep_square := match en_passant_square b with
    | some sq => sqBB sq
    | none => 0
  (squaresOf pawns).foldl (fun acc fromSq =>
    let attacks := pawn_capture our_color fromSq &&& (them ||| ep_square)
    (squaresOf attacks).foldl (fun acc toSq =>
      let to_bb := sqBB toSq
      if to_bb &&& ep_square ≠ 0 then acc ++ [Move.new_special fromSq toSq .EnPassant]
      else if promotion_rank &&& to_bb ≠ 0 then
        acc ++ [Move.new_special fromSq toSq .PromotionCaptureQ,
                Move.new_special fromSq toSq .PromotionCaptureR,
                Move.new_special fromSq toSq .PromotionCaptureB,
                Move.new_special fromSq toSq .PromotionCaptureN]
      else acc ++ [Move.new_special fromSq toSq .Capture]) acc) acc

/-- `movegen.rs` `generate_pawn_quiets::<WHITE>`. -/
def generate_pawn_quiets (white : Bool) (b : BoardState) (acc : List Move) : List Move :=
  let our_color := if white then Color.White else Color.Black
  let pawns := b.pieces .Pawn &&& b.colors our_color
  let promotion_rank : Nat := if white then 0xFF00000000000000 else 0x00000000000000FF
  let empty_bb := empty_squares b
  (squaresOf pawns).foldl (fun acc fromSq =>
    let attacks := pawn_push our_color fromSq &&& empty_bb
    (squaresOf attacks).foldl (fun acc toSq =>
      let to_bb := sqBB toSq
      if promotion_rank &&& to_bb ≠ 0 then
        acc ++ [Move.new_special fromSq toSq .PromotionQ,
                Move.new_special fromSq toSq .PromotionR,
                Move.new_special fromSq toSq .PromotionB,
                Move.new_special fromSq toSq .PromotionN]
      else
        let acc := acc ++ [Move.new_normal fromSq toSq]
        let double_pushes := pawn_double_push our_color fromSq &&& empty_bb
        if double_pushes ≠ 0 then
          acc ++ [Move.new_special fromSq (Bitboard.lsb double_pushes) .DoublePush]
        else acc) acc) acc

/-- `movegen.rs` `generate_castling::<WHITE>`. -/
def generate_castling (T : SliderAtt) (white : Bool) (b : BoardState) (acc : List Move) : List Move :=
  let rights := castling_rights b
  let occupancy := occupied_squares b
  if white then
    let acc :=
      if rights &&& WK ≠ 0 ∧ occupancy &&& (sqBB 5 ||| sqBB 6) = 0 ∧
          is_square_attacked T b 4 .Black = false ∧
          is_square_attacked T b 5 .Black = false ∧
          is_square_attacked T b 6 .Black = false then
        acc ++ [Move.new_special 4 6 .KingCastle]
      else acc
    if rights &&& WQ ≠ 0 ∧ occupancy &&& (sqBB 1 ||| sqBB 2 ||| sqBB 3) = 0 ∧
        is_square_attacked T b 2 .Black = false ∧
        is_square_attacked T b 3 .Black = false ∧
        is_square_attacked T b 4 .Black = false then
      acc ++ [Move.new_special 4 2 .QueenCastle]
    else acc
  else
    let acc :=
      if rights &&& BK ≠ 0 ∧ occupancy &&& (sqBB 61 ||| sqBB 62) = 0 ∧
          is_square_attacked T b 60 .White = false ∧
          is_square_attacked T b 61 .White = false ∧
          is_square_attacked T b 62 .White = false then
        acc ++ [Move.new_special 60 62 .KingCastle]
      else acc
    if rights &&& BQ ≠ 0 ∧ occupancy &&& (sqBB 57 ||| sqBB 58 ||| sqBB 59) = 0 ∧
        is_square_attacked T b 58 .White = false ∧
        is_square_attacked T b 59 .White = false ∧
        is_square_attacked T b 60 .White = false then
      acc ++ [Move.new_special 60 58 .QueenCastle]
    else acc

/-- `movegen.rs` `generate_white_moves`. -/
def generate_white_moves (T : SliderAtt) (b : BoardState) (acc : List Move) : List Move :=
  let acc := generate_moves .Knight knightTable true false b acc
  let acc := generate_moves .Knight knightTable true true b acc
  let acc := generate_moves .King kingTable true false b acc
  let acc := generate_moves .King kingTable true true b acc
  let acc := generate_moves .Bishop (alfeAtt T b) true false b acc
  let acc := generate_moves .Bishop (alfeAtt T b) true true b acc
  let acc := generate_moves .Rook (torAtt T b) true false b acc
  let acc := generate_moves .Rook (torAtt T b) true true b acc
  let acc := generate_moves .Queen (arginaAtt T b) true false b acc
  let acc := generate_moves .Queen (arginaAtt T b) true true b acc
  let acc := generate_pawn_quiets true b acc
  let acc := generate_pawn_captures true b acc
  generate_castling T true b acc

/-- `movegen.rs` `generate_black_moves`. -/
def generate_black_moves (T : SliderAtt) (b : BoardState) (acc : List Move) : List Move :=
  let acc := generate_moves .Knight knightTable false false b acc
  let acc := generate_moves .Knight knightTable false true b acc
  let acc := generate_moves .King kingTable false false b acc
  let acc := generate_moves .King kingTable false true b acc
  let acc := generate_moves .Bishop (alfeAtt T b) false false b acc
  let acc := generate_moves .Bishop (alfeAtt T b) false true b acc
  let acc := generate_moves .Rook (torAtt T b) false false b acc
  let acc := generate_moves .Rook (torAtt T b) false true b acc
  let acc := generate_moves .Queen (arginaAtt T b) false false b acc
  let acc := generate_moves .Queen (arginaAtt T b) false true b acc
  let acc := generate_pawn_quiets false b acc
  let acc := generate_pawn_captures false b acc
  generate_castling T false b acc

/-- `movegen.rs` `generate_all_moves` (as the list of generated moves). -/
def generate_all_moves (T : SliderAtt) (b : BoardState) : List Move :=
  match b.side_to_move with
  | .White => generate_white_moves T b []
  | .Black => generate_black_moves T b []

/-- `perft.rs` `perft`.  The source mutates one board in place and relies on
`unmake_move` to restore it; the embedding threads the (possibly imperfectly
restored) board through the loop exactly as the mutation does, returning the
node count together with the final board. -/
def perft (T : SliderAtt) (b : BoardState) : Nat → Nat × BoardState
  | 0 => (1, b)
  | d + 1 =>
    (generate_all_moves T b).foldl
      (fun (acc : Nat × BoardState) m =>
        let b1 := make_move acc.2 m
        if king_in_check T b1 b1.side_to_move.flip = false then
          let r := perft T b1 d
          (acc.1 + r.1, unmake_move r.2 m)
        else (acc.1, unmake_move b1 m))
      (0, b)

/-! ## The bounded move list (`movegen.rs` `MoveList`) -/

/-- `MoveList`: a 256-slot array plus a count.  The array is modelled as a
total function; the 256-slot bound lives in `MoveList.push`. -/
structure MoveList where
  moves : Nat → Move
  count : Nat

/-- `MoveList::new()`: 256 null moves, count 0. -/
def MoveList.nil : MoveList := { moves := fun _ => Move.NULL, count := 0 }

/-- `MoveList::push`: `self.moves[self.count] = m; self.count += 1`.  The
Rust array indexing panics when `count` is at or past the 256-slot capacity
(the method itself has no bound check); `none` models that panic. -/
def MoveList.push (ml : MoveList) (m : Move) : Option MoveList :=
  if ml.count < 256 then
    some { moves := Function.update ml.moves ml.count m, count := ml.count + 1 }
  else none

/-- `MoveList::count`. -/
def MoveList.cnt (ml : MoveList) : Nat := ml.count

/-- `MoveList::iter`: the first `count` stored moves in order (meaningful
for the reachable states, which all have `count ≤ 256`). -/
def MoveList.iter (ml : MoveList) : List Move :=
  (List.range ml.count).map ml.moves

/-- A sequence of `push` calls, propagating the panic. -/
def MoveList.pushList (ml : MoveList) : List Move → Option MoveList
  | [] => some ml
  | m :: ms => match ml.push m with
    | some ml2 => ml2.pushList ms
    | none => none

/-! ## FEN parsing (`board.rs` `from_fen`)

The parser is embedded over `List Char` (one entry per byte; exact for the
ASCII strings FEN is made of).  Its result is a `FenOutcome` paired with the
board as left behind: Rust's `Err(..)` returns are `err`, and the panics the
code can hit (indexing `mailbox` out of bounds while placing a piece,
`unreachable!()` in `Piece::from_char` on an unknown letter, and the
out-of-bounds `bytes[1]` on a one-byte en-passant field) are `crash`.
Release-mode wrapping arithmetic is used where the source wraps (the `7 -
rank_idx` usize subtraction, the u32 file counter, the u8 en-passant
subtractions). -/

/-- Outcome of `from_fen`: success, a textual error, or a panic. -/
inductive FenOutcome where
  | ok : FenOutcome
  | err : String → FenOutcome
  | crash : FenOutcome
deriving DecidableEq

/-- `str::split_whitespace` (ASCII view): maximal non-whitespace runs. -/
def splitWsAux : List Char → List Char → List (List Char)
  | [], cur => if cur.isEmpty then [] else [cur.reverse]
  | c :: rest, cur =>
    if c.isWhitespace then
      if cur.isEmpty then splitWsAux rest [] else cur.reverse :: splitWsAux rest []
    else splitWsAux rest (c :: cur)

/-- `fen.split_whitespace()` collected into a list of fields. -/
def splitWhitespace (s : List Char) : List (List Char) := splitWsAux s []

/-- `str::split('/')`, which keeps empty pieces. -/
def splitSlashAux : List Char → List Char → List (List Char)
  | [], cur => [cur.reverse]
  | c :: rest, cur =>
    if c = '/' then cur.reverse :: splitSlashAux rest []
    else splitSlashAux rest (c :: cur)

/-- `board_part.split('/')`. -/
def splitOnSlash (s : List Char) : List (List Char) := splitSlashAux s []

/-- Reset of the position performed by `from_fen` after field extraction. -/
def resetB (b : BoardState) : BoardState :=
  { b with mailbox := fun _ => none, pieces := fun _ => 0, colors := fun _ => 0, state_idx := 0 }

/-- The per-piece placement in the board loop of `from_fen` (mailbox entry
plus `|=` into the kind and color bitboards). -/
def placePiece (b : BoardState) (sq : Nat) (p : Piece) : BoardState :=
  { b with
    mailbox := Function.update b.mailbox sq (some p),
    pieces := Function.update b.pieces p.get_type (b.pieces p.get_type ||| sqBB sq),
    colors := Function.update b.colors p.get_color (b.colors p.get_color ||| sqBB sq) }

/-- One rank of the board loop of `from_fen`.  `file` is the u32 counter.
A placement at `sq ≥ 64` is the out-of-bounds `mailbox[sq]` panic; an
unrecognized character is the `unreachable!()` panic in `Piece::from_char`. -/
def parseRank (rankNum : Nat) : List Char → Nat → BoardState →
    Except (FenOutcome × BoardState) (Nat × BoardState)
  | [], file, b => .ok (file, b)
  | ch :: rest, file, b =>
    if ch.isDigit then parseRank rankNum rest ((file + (ch.toNat - 48)) % 2 ^ 32) b
    else
      match Piece.from_char ch with
      | none => .error (.crash, b)
      | some piece =>
        let sq := (rankNum * 8 + file) % 2 ^ 64
        if sq < 64 then parseRank rankNum rest ((file + 1) % 2 ^ 32) (placePiece b sq piece)
        else .error (.crash, b)

/-- The rank iteration of `from_fen`: `rank_num = 7 - rank_idx` is a usize
subtraction, wrapping in release mode (rank 9 and beyond yield a huge
`rank_num`, so any placement there is an out-of-bounds panic). -/
def parseRanks : List (List Char) → Nat → BoardState →
    Except (FenOutcome × BoardState) BoardState
  | [], _, b => .ok b
  | rank :: rest, rank_idx, b =>
    let rankNum := (7 + 2 ^ 64 - rank_idx % 2 ^ 64) % 2 ^ 64
    match parseRank rankNum rank 0 b with
    | .error e => .error e
    | .ok fb =>
      if fb.1 ≠ 8 then .error (.err "Invalid FEN rank length", fb.2)
      else parseRanks rest (rank_idx + 1) fb.2

/-- The castling-field loop of `from_fen`. -/
def parseCastling : List Char → Nat → Option Nat
  | [], c => some c
  | ch :: rest, c =>
    if ch = 'K' then parseCastling rest (c ||| 1)
    else if ch = 'Q' then parseCastling rest (c ||| 2)
    else if ch = 'k' then parseCastling rest (c ||| 4)
    else if ch = 'q' then parseCastling rest (c ||| 8)
    else if ch = '-' then parseCastling rest c
    else none

/-- The en-passant field of `from_fen`: `bytes[0]`/`bytes[1]` with u8
wrapping subtraction.  A non-"-" field of fewer than two bytes panics on
`bytes[1]`; bytes past the second are ignored. -/
def parseEp (part : List Char) : Except FenOutcome (Option Nat) :=
  if part = ['-'] then .ok none
  else
    match part with
    | c0 :: c1 :: _ =>
      let file := (c0.toNat % 256 + 256 - 97) % 256
      let rank := (c1.toNat % 256 + 256 - 49) % 256
      if 7 < file ∨ 7 < rank then .error (.err "Invalid en passant square")
      else .ok (some (rank * 8 + file))
    | _ => .error .crash

/-- `usize::from_str` as used on the halfmove field: optional leading `+`,
then one or more ASCII digits, rejecting overflow past `2^64 - 1`. -/
def parseUsize (s : List Char) : Option Nat :=
  let ds := match s with
    | '+' :: rest => rest
    | _ => s
  if ds.isEmpty then none
  else if ds.all Char.isDigit then
    let v := ds.foldl (fun a c => a * 10 + (c.toNat - 48)) 0
    if v < 2 ^ 64 then some v else none
  else none

/-- `Board::from_fen` (`board.rs` lines 341-428), returning the outcome and
the board as left behind.  The two missing-field errors fire before the
reset; all later exits happen on the reset-then-partially-updated board. -/
def from_fen (b : BoardState) (s : List Char) : FenOutcome × BoardState :=
  match splitWhitespace s with
  | [] => (.err "FEN missing board part", b)
  | [_] => (.err "FEN missing side to move", b)
  | board_part :: side_part :: rest =>
    let castling_part := rest.getD 0 ['-']
    let en_passant_part := rest.getD 1 ['-']
    let halfmove_part := rest.getD 2 ['0']
    match parseRanks (splitOnSlash board_part) 0 (resetB b) with
    | .error e => e
    | .ok b1 =>
      if side_part = ['w'] ∨ side_part = ['b'] then
        let b2 : BoardState :=
          { b1 with side_to_move := if side_part = ['w'] then .White else .Black }
        match parseCastling castling_part 0 with
        | none => (.err "Invalid castling", b2)
        | some castling =>
          match parseEp en_passant_part with
          | .error out => (out, b2)
          | .ok en_passant =>
            let st : State :=
              { castling := castling, en_passant := en_passant,
                halfmove := (parseUsize halfmove_part).getD 0,
                captured := none, zobrist := 0 }
            (.ok, { b2 with state_stack := Function.update b2.state_stack 0 st, state_idx := 0 })
      else (.err "Invalid side to move", b1)

/-- The standard starting position string. -/
def startFen : List Char := "rnbqkbnr/pppppppp/8/8/8/8/PPPPPPPP/RNBQKBNR w KQkq - 0 1".toList

/-- The board after `set_startpos` (parsing `startFen` on a fresh board). -/
def startBoard : BoardState := (from_fen BoardState.dflt startFen).2

/-! ## Magic bitboards (`magics.rs`)

The random candidate stream of `search_loop` comes from `rand`'s `SmallRng`,
an external crate: it is abstracted as a function from seed and draw index
to a u64 draw.  Everything else — the relevant-occupancy masks, the
occupancy enumeration, the reference ray walk, the candidate filtering, the
collision check, the per-square tables and the flat-table assembly — is
translated from `magics.rs`. -/

/-- `magics.rs` `ROOK_DELTAS`. -/
def ROOK_DELTAS : List (Int × Int) := [(0, 1), (1, 0), (0, -1), (-1, 0)]

/-- `magics.rs` `BISHOP_DELTAS`. -/
def BISHOP_DELTAS : List (Int × Int) := [(1, 1), (1, -1), (-1, 1), (-1, -1)]

/-- One ray of `MagicTables::sliding_attack`: walk from `(r, f)` in
direction `(dr, df)` until leaving the board, including the first blocker.
A ray on an 8×8 board has at most 7 steps, so 8 units of fuel never run
out. -/
def slideRay (occ : Nat) (dr df : Int) : Nat → Int → Int → Nat
  | 0, _, _ => 0
  | fuel + 1, r, f =>
    if 0 ≤ r ∧ r < 8 ∧ 0 ≤ f ∧ f < 8 then
      let sq := (r * 8 + f).toNat
      let bbq := sqBB sq
      if occ &&& bbq ≠ 0 then bbq
      else bbq ||| slideRay occ dr df fuel (r + dr) (f + df)
    else 0

/-- `MagicTables::sliding_attack`: the reference ray walk. -/
def sliding_attack (sq : Nat) (deltas : List (Int × Int)) (occ : Nat) : Nat :=
  deltas.foldl (fun acc d =>
    acc ||| slideRay occ d.1 d.2 8 ((sq / 8 : Nat) + d.1) ((sq % 8 : Nat) + d.2)) 0

/-- One ray of `MagicTables::relevant_occupancy_mask` (before the edge
mask is applied): same walk, no blockers. -/
def maskRay (dr df : Int) : Nat → Int → Int → Nat
  | 0, _, _ => 0
  | fuel + 1, r, f =>
    if 0 ≤ r ∧ r < 8 ∧ 0 ≤ f ∧ f < 8 then
      sqBB (r * 8 + f).toNat ||| maskRay dr df fuel (r + dr) (f + df)
    else 0

/-- `Bitboard::square_to_rank`. -/
def square_to_rank (sq : Nat) : Nat := 0xFF <<< (sq / 8 * 8)

/-- `Bitboard::square_to_file`. -/
def square_to_file (sq : Nat) : Nat := 0x0101010101010101 <<< (sq % 8)

/-- `MagicTables::relevant_occupancy_mask`. -/
def relevant_occupancy_mask (sq : Nat) (deltas : List (Int × Int)) : Nat :=
  let rank_edges := (0xFF ||| 0xFF00000000000000) &&& bnot64 (square_to_rank sq)
  let file_edges := (0x0101010101010101 ||| 0x8080808080808080) &&& bnot64 (square_to_file sq)
  let edges := rank_edges ||| file_edges
  let mask := deltas.foldl (fun acc d =>
    acc ||| maskRay d.1 d.2 8 ((sq / 8 : Nat) + d.1) ((sq % 8 : Nat) + d.2)) 0
  mask &&& bnot64 edges

/-- The bit positions of `mask` in ascending order: the
`relevant_square_indices` collected by `enumerate_occupancies` (which scans
`Square::ALL` in order). -/
def maskBits (mask : Nat) : List Nat := (List.range 64).filter (fun i => mask.testBit i)

/-- The body of the subset loop in `enumerate_occupancies`: scatter the low
bits of `subset` onto the listed square indices (`subset & (1 << i)` selects
whether `1 << square` enters the occupancy). -/
def scatterBits (subset : Nat) (bs : List Nat) : Nat :=
  (bs.enum.foldl (fun occ p =>
    if subset &&& (1 <<< p.1) ≠ 0 then occ ||| (1 <<< p.2) else occ) 0)

/-- `MagicTables::enumerate_occupancies`: all `2^popcount(mask)` subsets. -/
def enumerate_occupancies (mask : Nat) : List Nat :=
  (List.range (2 ^ popcount64 mask)).map (fun subset => scatterBits subset (maskBits mask))

/-- One pass of the `for i in 0..occupancies.len()` table-filling loop in
`search_loop`: place each occupancy's attack at its magic index, allowing
only consistent collisions.  `none` is the `continue 'search` rejection. -/
def fillTable (mask magic shift : Nat) :
    List Nat → List Nat → List (Option Nat) → Option (List (Option Nat))
  | [], _, tbl => some tbl
  | _, [], tbl => some tbl
  | occ :: os, att :: as_, tbl =>
    let index := (((occ &&& mask) * magic) % 2 ^ 64) >>> shift
    match tbl.getD index none with
    | none => fillTable mask magic shift os as_ (tbl.set index (some att))
    | some existing =>
      if existing = att then fillTable mask magic shift os as_ tbl
      else none

/-- `MagicTables::sparse_random`: the AND of three draws from the stream. -/
def sparse_random (st : Nat → Nat) (attempt : Nat) : Nat :=
  (st (3 * attempt) &&& st (3 * attempt + 1) &&& st (3 * attempt + 2)) % 2 ^ 64

/-- The `'search` attempt loop of `search_loop` for one square: up to `fuel`
candidates (10,000,000 in the source), each first filtered by the entropy
test on the top byte of `mask * magic`, then checked collision-free over all
occupancies.  On success, returns the magic and the materialized block
(`temp_table[i].unwrap_or(0)`). -/
def findMagic (mask shift : Nat) (occs atts : List Nat) (st : Nat → Nat)
    (tableSize : Nat) : Nat → Nat → Option (Nat × List Nat)
  | _, 0 => none
  | attempt, fuel + 1 =>
    let magic := sparse_random st attempt
    if popcount64 ((mask * magic) % 2 ^ 64 &&& 0xFF00000000000000) < 6 then
      findMagic mask shift occs atts st tableSize (attempt + 1) fuel
    else
      match fillTable mask magic shift occs atts (List.replicate tableSize none) with
      | some tbl => some (magic, tbl.map (fun o => o.getD 0))
      | none => findMagic mask shift occs atts st tableSize (attempt + 1) fuel

/-- The whole per-square search of `search_loop`: masks, occupancy
enumeration, reference attacks, and the 10,000,000-attempt magic search,
over the candidate stream `st`. -/
def searchSquare (deltas : List (Int × Int)) (st : Nat → Nat) (sq : Nat) :
    Option (Nat × List Nat) :=
  let mask := relevant_occupancy_mask sq deltas
  let relevant_bits := popcount64 mask
  let shift := 64 - relevant_bits
  let occs := enumerate_occupancies mask
  let atts := occs.map (fun occ => sliding_attack sq deltas occ)
  findMagic mask shift occs atts st (2 ^ relevant_bits) 0 10000000

/-- The per-square RNG seed: `0xD10FA ^ (sq as u64 * 0xD10BE571A)`. -/
def magicSeed (sq : Nat) : Nat := (0xD10FA ^^^ (sq * 0xD10BE571A)) % 2 ^ 64

/-- Accumulator of `search_loop`: chosen magics, per-square offsets, the
flat attack table, and the running offset. -/
structure MagicLoopState where
  magics : Nat → Nat
  offsets : Nat → Nat
  flat : List Nat
  off : Nat

/-- One square of `search_loop`: on success record the magic and offset and
append the square's block to the flat table; on failure (no candidate in
10,000,000 attempts) leave the zero-initialized entries untouched. -/
def magicLoopStep (deltas : List (Int × Int)) (rng : Nat → Nat → Nat)
    (s : MagicLoopState) (sq : Nat) : MagicLoopState :=
  match searchSquare deltas (rng (magicSeed sq)) sq with
  | none => s
  | some r =>
    { magics := Function.update s.magics sq r.1,
      offsets := Function.update s.offsets sq s.off,
      flat := s.flat ++ r.2,
      off := s.off + r.2.length }

/-- `MagicTables::search_loop` over all 64 squares, abstracted over the
RNG (`rng seed i` is the i-th `next_u64` draw of `SmallRng::seed_from_u64
(seed)`). -/
def search_loop (deltas : List (Int × Int)) (rng : Nat → Nat → Nat) : MagicLoopState :=
  (List.range 64).foldl (magicLoopStep deltas rng)
    { magics := fun _ => 0, offsets := fun _ => 0, flat := [], off := 0 }

/-- The magic lookup expression of the claim (and of `Tor::get_attacks` /
`is_square_attacked`): `flat[offsets[sq] + ((occ & mask) * magic >> (64 -
popcount mask))]`, with wrapping 64-bit multiplication. -/
def magicLookup (S : MagicLoopState) (sq occ mask : Nat) : Nat :=
  S.flat.getD (S.offsets sq + (((occ &&& mask) * S.magics sq) % 2 ^ 64) >>> (64 - popcount64 mask)) 0

/-! ## Reference slider tables and the position invariant -/

/-- The reference slider interface: ray-walk attacks on the masked relevant
occupancy — exactly the value the magic lookup is proved to produce. -/
def refSlider : SliderAtt :=
  { rook := fun sq occ => sliding_attack sq ROOK_DELTAS (occ &&& relevant_occupancy_mask sq ROOK_DELTAS),
    bishop := fun sq occ => sliding_attack sq BISHOP_DELTAS (occ &&& relevant_occupancy_mask sq BISHOP_DELTAS) }

/-- Decidable check of the spec's Position consistency invariant: every
mailbox entry matches exactly one color bitboard and exactly one kind
bitboard (with matching color and kind), empty squares are in neither; the
two color boards are disjoint; the kind boards union to the occupancy; and
each side has exactly one king. -/
def posInvariant (b : BoardState) : Bool :=
  (List.range 64).all (fun s =>
    match b.mailbox s with
    | some p =>
      (b.colors p.get_color).testBit s && !(b.colors p.get_color.flip).testBit s &&
      (b.pieces p.get_type).testBit s &&
      [PieceType.Pawn, .Knight, .Bishop, .Rook, .Queen, .King].all
        (fun t => t = p.get_type || !(b.pieces t).testBit s)
    | none =>
      !(b.colors .White).testBit s && !(b.colors .Black).testBit s &&
      [PieceType.Pawn, .Knight, .Bishop, .Rook, .Queen, .King].all
        (fun t => !(b.pieces t).testBit s)) &&
  (b.colors .White &&& b.colors .Black = 0) &&
  (b.pieces .Pawn ||| b.pieces .Knight ||| b.pieces .Bishop ||| b.pieces .Rook |||
    b.pieces .Queen ||| b.pieces .King = b.colors .White ||| b.colors .Black) &&
  (popcount64 (b.pieces .King &&& b.colors .White) = 1) &&
  (popcount64 (b.pieces .King &&& b.colors .Black) = 1)

/-! ## Spec-side FEN error classification (for the amended claim C4)

A board-state-free description of when `from_fen` returns each textual
error, when it succeeds, and when it panics, phrased over the whitespace
fields and, within the board field, over each rank's character list. -/

/-- Status of scanning one rank: panicked (unknown letter or an
out-of-board placement), or completed with a final file total. -/
inductive RankStatus where
  | crashed : RankStatus
  | total : Nat → RankStatus
deriving DecidableEq

/-- Spec-side rank scan: digits advance the file counter by their value;
recognized piece letters require the placement square to be on the board
and advance the file by one; anything else is a panic. -/
def rankClass (rankNum : Nat) : List Char → Nat → RankStatus
  | [], file => .total file
  | ch :: rest, file =>
    if ch.isDigit then rankClass rankNum rest ((file + (ch.toNat - 48)) % 2 ^ 32)
    else if (Piece.from_char ch).isSome ∧ (rankNum * 8 + file) % 2 ^ 64 < 64 then
      rankClass rankNum rest ((file + 1) % 2 ^ 32)
    else .crashed

/-- Spec-side board-field classification: scan ranks top-down, stopping at
the first panic or at the first rank whose file total is not 8. -/
def boardClass : List (List Char) → Nat → Option FenOutcome
  | [], _ => none
  | rank :: rest, rank_idx =>
    let rankNum := (7 + 2 ^ 64 - rank_idx % 2 ^ 64) % 2 ^ 64
    match rankClass rankNum rank 0 with
    | .crashed => some .crash
    | .total f =>
      if f ≠ 8 then some (.err "Invalid FEN rank length")
      else boardClass rest (rank_idx + 1)

/-- Spec-side castling-field check: every character in `KQkq-`. -/
def castlingClass (cs : List Char) : Bool :=
  cs.all (fun ch => decide (ch = 'K' ∨ ch = 'Q' ∨ ch = 'k' ∨ ch = 'q' ∨ ch = '-'))

/-- Spec-side en-passant-field classification: `-` passes; otherwise the
field needs at least two bytes (one byte panics) and its first two bytes
must name a square `a1..h8` after the wrapping subtractions; later bytes
are ignored. -/
def epClass (part : List Char) : Option FenOutcome :=
  if part = ['-'] then none
  else
    match part with
    | c0 :: c1 :: _ =>
      if 7 < (c0.toNat % 256 + 256 - 97) % 256 ∨ 7 < (c1.toNat % 256 + 256 - 49) % 256 then
        some (.err "Invalid en passant square")
      else none
    | _ => some .crash

/-- Spec-side classification of the whole `from_fen` outcome. -/
def fenClass (s : List Char) : FenOutcome :=
  match splitWhitespace s with
  | [] => .err "FEN missing board part"
  | [_] => .err "FEN missing side to move"
  | board_part :: side_part :: rest =>
    match boardClass (splitOnSlash board_part) 0 with
    | some out => out
    | none =>
      if side_part = ['w'] ∨ side_part = ['b'] then
        if castlingClass (rest.getD 0 ['-']) then
          match epClass (rest.getD 1 ['-']) with
          | some out => out
          | none => .ok
        else .err "Invalid castling"
      else .err "Invalid side to move"

/-! ## Concrete instances used by the claim theorems -/

/-- A position with a quiet promotion available: white pawn a7, white king
a1, black king b8, white to move. -/
def promoFen : List Char := "1k6/P7/8/8/8/8/8/K7 w - - 0 1".toList

/-- The parsed promotion position. -/
def promoBoard : BoardState := (from_fen BoardState.dflt promoFen).2

/-- The promotion move a7a8=Q (from 48, to 56, kind PromotionQ). -/
def promoMove : Move := Move.new_special 48 56 .PromotionQ

/-- An otherwise well-formed FEN whose en-passant field is the single
character `e`. -/
def epCrashFen : List Char := "8/8/8/8/8/8/8/8 w - e".toList

/-- A FEN with a full board field and an invalid side-to-move field. -/
def sideErrFen : List Char := "k7/8/8/8/8/8/8/K7 x".toList

/-- A collision-free magic multiplier for the bishop on a1 (6 relevant
occupancy bits, shift 58), used as a constant candidate stream in the
witness of the magic-lookup theorem. -/
def bishopA1Magic : Nat := 0x40200411020C0210

/-- Bit-consuming reformulation of `scatterBits` (same value, recursing on
the square list while halving the subset index), used to reason about the
occupancy enumeration. -/
def consumeScatter : List Nat → Nat → Nat
  | [], _ => 0
  | b :: bs, s => (if s % 2 = 1 then 1 <<< b else 0) ||| consumeScatter bs (s / 2)

/-! # Theorems -/

/-! ## Shared arithmetic lemmas -/

/-- Bitwise or of a low field and a shifted field is their sum. -/
theorem lor_shiftLeft_eq_add {a : Nat} (b n : Nat) (h : a < 2 ^ n) :
    a ||| (b <<< n) = a + (b <<< n) := by
  apply Nat.eq_of_testBit_eq
  intro i
  rcases Nat.lt_or_ge i n with hi | hi
  · rw [Nat.testBit_lor, Nat.testBit_shiftLeft]
    have h1 : ¬ (i ≥ n) := by omega
    have h2 : (a + b <<< n) % 2 ^ n = a := by
      rw [Nat.shiftLeft_eq, Nat.add_mul_mod_self_right, Nat.mod_eq_of_lt h]
    have h3 : Nat.testBit (a + b <<< n) i = Nat.testBit ((a + b <<< n) % 2 ^ n) i := by
      rw [Nat.testBit_mod_two_pow]
      simp [hi]
    rw [h3, h2]
    simp [h1]
  · obtain ⟨j, rfl⟩ : ∃ j, i = n + j := ⟨i - n, by omega⟩
    rw [Nat.testBit_lor, Nat.testBit_shiftLeft]
    have ha : Nat.testBit a (n + j) = false :=
      Nat.testBit_lt_two_pow (Nat.lt_of_lt_of_le h (Nat.pow_le_pow_right (by decide) (by omega)))
    have hd : (a + b <<< n) >>> n = b := by
      rw [Nat.shiftLeft_eq, Nat.shiftRight_eq_div_pow,
        Nat.add_mul_div_right _ _ (Nat.pos_pow_of_pos n (by decide)), Nat.div_eq_of_lt h]
      omega
    have hsum : Nat.testBit (a + b <<< n) (n + j) = Nat.testBit b j := by
      rw [← Nat.testBit_shiftRight, hd]
    rw [hsum, ha]
    simp [hi, show n + j - n = j by omega]

/-- Masking a 16-bit encoding with a tag-field mask only sees the tag. -/
theorem land_mask_high {low : Nat} (tag m : Nat) (h : low < 2 ^ 12) :
    (low + tag <<< 12) &&& (m <<< 12) = (tag &&& m) <<< 12 := by
  apply Nat.eq_of_testBit_eq
  intro i
  rw [Nat.testBit_land, Nat.testBit_shiftLeft, Nat.testBit_shiftLeft, Nat.testBit_land]
  rcases Nat.lt_or_ge i 12 with hi | hi
  · have h1 : ¬ (i ≥ 12) := by omega
    simp [h1]
  · obtain ⟨j, rfl⟩ : ∃ j, i = 12 + j := ⟨i - 12, by omega⟩
    have hd : (low + tag <<< 12) >>> 12 = tag := by
      rw [Nat.shiftLeft_eq, Nat.shiftRight_eq_div_pow,
        Nat.add_mul_div_right _ _ (Nat.pos_pow_of_pos 12 (by decide)), Nat.div_eq_of_lt h]
      omega
    have hsum : Nat.testBit (low + tag <<< 12) (12 + j) = Nat.testBit tag j := by
      rw [← Nat.testBit_shiftRight, hd]
    rw [hsum]
    simp [hi, show 12 + j - 12 = j by omega]

/-! ## Claim C6: the 16-bit move encoding -/

/-- C6.  For every `from` and `to` in `[0, 64)` and every move kind,
`new_special(from, to, kind)` (and `new_normal(from, to)` for the quiet
kind) decodes exactly: `from_square`/`to_square`/`get_type` return the
packed fields; `is_capture` holds iff tag bit 0b0100 (encoding bit 0x4000)
is set, `is_promotion` iff tag bit 0b1000 (encoding bit 0x8000),
`is_castling` iff the tag is 0b0010 or 0b0011, `is_enpassant` iff the tag is
0b0101, `is_double_push` iff the tag is 0b0001; and on promotion kinds
`get_promotion_piece` reads the low two tag bits as
knight/bishop/rook/queen. -/
theorem spec_move_encoding (f t : Nat) (hf : f < 64) (ht : t < 64) (k : MoveType) :
    Move.from_square (Move.new_special f t k) = f ∧
    Move.to_square (Move.new_special f t k) = t ∧
    Move.get_type (Move.new_special f t k) = some k ∧
    (Move.is_capture (Move.new_special f t k) = true ↔ k.toNat &&& 0b0100 ≠ 0) ∧
    (Move.is_promotion (Move.new_special f t k) = true ↔ k.toNat &&& 0b1000 ≠ 0) ∧
    (Move.is_castling (Move.new_special f t k) = true ↔ (k = .KingCastle ∨ k = .QueenCastle)) ∧
    (Move.is_enpassant (Move.new_special f t k) = true ↔ k = .EnPassant) ∧
    (Move.is_double_push (Move.new_special f t k) = true ↔ k = .DoublePush) ∧
    (Move.is_promotion (Move.new_special f t k) = true →
      Move.get_promotion_piece (Move.new_special f t k) =
        [PieceType.Knight, PieceType.Bishop, PieceType.Rook, PieceType.Queen].getD
          (k.toNat &&& 0b11) PieceType.Knight) ∧
    Move.new_normal f t = Move.new_special f t MoveType.Normal := by
  have htag : MoveType.toNat k < 16 := by cases k <;> decide
  have h64 : t <<< 6 = t * 64 := by rw [Nat.shiftLeft_eq]
  have hlow : f + t <<< 6 < 2 ^ 12 := by rw [h64]; omega
  have henc : Move.new_special f t k = (f + t <<< 6) + MoveType.toNat k <<< 12 := by
    show (f ||| t <<< 6) ||| MoveType.toNat k <<< 12 = _
    rw [lor_shiftLeft_eq_add t 6 (by omega : f < 2 ^ 6),
        lor_shiftLeft_eq_add (MoveType.toNat k) 12 hlow]
  have henum : Move.new_special f t k = f + t * 64 + MoveType.toNat k * 4096 := by
    rw [henc, h64, Nat.shiftLeft_eq]
  have hmask : ∀ m : Nat,
      Move.new_special f t k &&& (m <<< 12) = (MoveType.toNat k &&& m) <<< 12 := by
    intro m
    rw [henc, land_mask_high _ m hlow]
  have hsplit : f + t * 64 + MoveType.toNat k * 4096 =
      (f + t * 64) + MoveType.toNat k * 4096 := by ring
  have h12 : Move.new_special f t k >>> 12 = MoveType.toNat k := by
    rw [henum, Nat.shiftRight_eq_div_pow, (by norm_num : (2 : Nat) ^ 12 = 4096), hsplit,
        Nat.add_mul_div_right _ _ (by norm_num : (0 : Nat) < 4096),
        Nat.div_eq_of_lt (by omega : f + t * 64 < 4096), Nat.zero_add]
  have hshiftiff : ∀ a b : Nat, a <<< 12 = b <<< 12 ↔ a = b := by
    intro a b
    rw [Nat.shiftLeft_eq, Nat.shiftLeft_eq]
    constructor
    · intro h
      exact Nat.eq_of_mul_eq_mul_right (by norm_num) h
    · intro h
      rw [h]
  refine ⟨?_, ?_, ?_, ?_, ?_, ?_, ?_, ?_, ?_, ?_⟩
  · show Move.new_special f t k &&& 0x3F = f
    rw [(by decide : (0x3F : Nat) = 2 ^ 6 - 1), Nat.and_pow_two_sub_one_eq_mod, henum,
        (by norm_num : (2 : Nat) ^ 6 = 64),
        (by ring : f + t * 64 + MoveType.toNat k * 4096 = f + (t + MoveType.toNat k * 64) * 64),
        Nat.add_mul_mod_self_right, Nat.mod_eq_of_lt hf]
  · show (Move.new_special f t k >>> 6) &&& 0x3F = t
    rw [(by decide : (0x3F : Nat) = 2 ^ 6 - 1), Nat.and_pow_two_sub_one_eq_mod,
        Nat.shiftRight_eq_div_pow, henum, (by norm_num : (2 : Nat) ^ 6 = 64),
        (by ring : f + t * 64 + MoveType.toNat k * 4096 = f + (t + MoveType.toNat k * 64) * 64),
        Nat.add_mul_div_right _ _ (by norm_num : (0 : Nat) < 64),
        Nat.div_eq_of_lt hf, Nat.zero_add, Nat.add_mul_mod_self_right, Nat.mod_eq_of_lt ht]
  · show MoveType.fromTag (Move.new_special f t k >>> 12) = some k
    rw [h12]
    cases k <;> decide
  · simp only [Move.is_capture, decide_eq_true_eq]
    rw [(by decide : (0x4000 : Nat) = 4 <<< 12), hmask 4, Nat.shiftLeft_eq]
    simp [Nat.mul_eq_zero]
  · simp only [Move.is_promotion, decide_eq_true_eq]
    rw [(by decide : (0x8000 : Nat) = 8 <<< 12), hmask 8, Nat.shiftLeft_eq]
    simp [Nat.mul_eq_zero]
  · simp only [Move.is_castling, decide_eq_true_eq]
    rw [(by decide : (0xE000 : Nat) = 14 <<< 12), (by decide : (0x2000 : Nat) = 2 <<< 12),
        hmask 14, hshiftiff]
    cases k <;> decide
  · simp only [Move.is_enpassant, decide_eq_true_eq]
    rw [(by decide : (0xF000 : Nat) = 15 <<< 12), (by decide : (0x5000 : Nat) = 5 <<< 12),
        hmask 15, hshiftiff]
    cases k <;> decide
  · simp only [Move.is_double_push, decide_eq_true_eq]
    rw [(by decide : (0xF000 : Nat) = 15 <<< 12), (by decide : (0x1000 : Nat) = 1 <<< 12),
        hmask 15, hshiftiff]
    cases k <;> decide
  · simp only [Move.is_promotion, decide_eq_true_eq]
    rw [(by decide : (0x8000 : Nat) = 8 <<< 12), hmask 8, Nat.shiftLeft_eq]
    intro hp
    have hp8 : MoveType.toNat k &&& 8 ≠ 0 := by
      intro hz
      rw [hz] at hp
      simp at hp
    show Move.get_promotion_piece _ = _
    unfold Move.get_promotion_piece
    rw [h12]
    revert hp8
    cases k <;> decide
  · show f ||| t <<< 6 = (f ||| t <<< 6) ||| MoveType.toNat MoveType.Normal <<< 12
    rw [(by decide : MoveType.toNat MoveType.Normal <<< 12 = 0), Nat.or_zero]

/-- Witness for C6 at `from = 12`, `to = 28`, kind `Capture`. -/
theorem spec_move_encoding_witness :
    (12 : Nat) < 64 ∧ (28 : Nat) < 64 ∧
      Move.from_square (Move.new_special 12 28 MoveType.Capture) = 12 :=
  ⟨by decide, by decide,
    (spec_move_encoding 12 28 (by decide) (by decide) MoveType.Capture).1⟩

/-! ## Claim C8: `Bitboard::pop_lsb` -/

/-- Specification of the `tzFrom` scan: either it finds the first set bit
at or after `i` within `fuel` steps, or no bit in the window is set. -/
theorem tzFrom_spec (fuel : Nat) : ∀ (i b : Nat),
    (tzFrom b i fuel < i + fuel ∧ Nat.testBit b (tzFrom b i fuel) = true ∧
      ∀ j, i ≤ j → j < tzFrom b i fuel → Nat.testBit b j = false) ∨
    (tzFrom b i fuel = i + fuel ∧ ∀ j, i ≤ j → j < i + fuel → Nat.testBit b j = false) := by
  induction fuel with
  | zero =>
    intro i b
    right
    exact ⟨rfl, fun j h1 h2 => absurd (Nat.lt_of_le_of_lt h1 h2) (by omega)⟩
  | succ fuel ih =>
    intro i b
    have hunf : tzFrom b i (fuel + 1) = if Nat.testBit b i then i else tzFrom b (i + 1) fuel := rfl
    by_cases hbit : Nat.testBit b i
    · rw [hunf, if_pos hbit]
      left
      exact ⟨by omega, hbit, fun j h1 h2 => absurd (Nat.lt_of_le_of_lt h1 h2) (by omega)⟩
    · rw [hunf, if_neg hbit]
      rcases ih (i + 1) b with ⟨h1, h2, h3⟩ | ⟨h1, h2⟩
      · left
        refine ⟨by omega, h2, fun j hj1 hj2 => ?_⟩
        rcases Nat.eq_or_lt_of_le hj1 with rfl | hj
        · exact Bool.eq_false_iff.mpr hbit
        · exact h3 j (by omega) hj2
      · right
        refine ⟨by omega, fun j hj1 hj2 => ?_⟩
        rcases Nat.eq_or_lt_of_le hj1 with rfl | hj
        · exact Bool.eq_false_iff.mpr hbit
        · exact h2 j (by omega) (by omega)

/-- On a nonzero 64-bit word, `trailing_zeros` returns the index of the
least significant set bit. -/
theorem trailing_zeros_spec (b : Nat) (hb : b ≠ 0) (hlt : b < 2 ^ 64) :
    trailing_zeros b < 64 ∧ Nat.testBit b (trailing_zeros b) = true ∧
      ∀ j, j < trailing_zeros b → Nat.testBit b j = false := by
  rw [show trailing_zeros b = tzFrom b 0 64 from rfl]
  rcases tzFrom_spec 64 0 b with ⟨h1, h2, h3⟩ | ⟨_, h2⟩
  · exact ⟨by omega, h2, fun j hj => h3 j (Nat.zero_le j) hj⟩
  · exfalso
    apply hb
    apply Nat.eq_of_testBit_eq
    intro i
    rw [Nat.zero_testBit]
    rcases Nat.lt_or_ge i 64 with hi | hi
    · exact h2 i (Nat.zero_le i) (by omega)
    · exact Nat.testBit_lt_two_pow
        (Nat.lt_of_lt_of_le hlt (Nat.pow_le_pow_right (by decide) hi))

/-- `b & (b - 1)` clears exactly the least significant set bit. -/
theorem land_pred_testBit (b t : Nat) (hbt : Nat.testBit b t = true)
    (hmin : ∀ j, j < t → Nat.testBit b j = false) :
    ∀ i, Nat.testBit (b &&& (b - 1)) i = (decide (i ≠ t) && Nat.testBit b i) := by
  have hept : (0 : Nat) < 2 ^ t := Nat.pos_pow_of_pos t (by decide)
  have hmod : b % 2 ^ t = 0 := by
    apply Nat.eq_of_testBit_eq
    intro j
    rw [Nat.zero_testBit, Nat.testBit_mod_two_pow]
    by_cases hj : j < t
    · simp [hj, hmin j hj]
    · simp [hj]
  have hdvd : 2 ^ t ∣ b := Nat.dvd_of_mod_eq_zero hmod
  have hb2 : b = 2 ^ t * (b / 2 ^ t) := (Nat.mul_div_cancel' hdvd).symm
  have hq1 : b / 2 ^ t % 2 = 1 := by
    have := hbt
    rw [Nat.testBit_to_div_mod] at this
    exact of_decide_eq_true this
  obtain ⟨m, hm⟩ : ∃ m, b / 2 ^ t = 2 * m + 1 := ⟨b / 2 ^ t / 2, by omega⟩
  have hbm : b = 2 ^ t * (2 * m) + 2 ^ t := by rw [hb2, hm]; ring
  have hbm1 : b - 1 = 2 ^ t * (2 * m) + (2 ^ t - 1) := by omega
  have hdivt : (b - 1) / 2 ^ t = 2 * m := by
    rw [hbm1, Nat.mul_add_div hept, Nat.div_eq_of_lt (by omega), Nat.add_zero]
  intro i
  rcases lt_trichotomy i t with hi | rfl | hi
  · rw [Nat.testBit_land, hmin i hi]
    simp
  · rw [Nat.testBit_land]
    have h1 : Nat.testBit (b - 1) i = false := by
      rw [Nat.testBit_to_div_mod, hdivt]
      simp [Nat.mul_mod_right]
    simp [h1]
  · obtain ⟨j, rfl⟩ : ∃ j, i = t + (j + 1) := ⟨i - t - 1, by omega⟩
    have hpow : (2 : Nat) ^ (t + (j + 1)) = 2 ^ t * 2 ^ (j + 1) := by rw [Nat.pow_add]
    have e1 : (b - 1) / 2 ^ (t + (j + 1)) = m / 2 ^ j := by
      rw [hpow, ← Nat.div_div_eq_div_mul, hdivt, Nat.pow_succ, Nat.mul_comm (2 ^ j) 2,
        ← Nat.div_div_eq_div_mul, Nat.mul_div_cancel_left _ (by decide : (0:Nat) < 2)]
    have e2 : b / 2 ^ (t + (j + 1)) = m / 2 ^ j := by
      rw [hpow, ← Nat.div_div_eq_div_mul, hm, Nat.pow_succ, Nat.mul_comm (2 ^ j) 2,
        ← Nat.div_div_eq_div_mul, (by omega : (2 * m + 1) / 2 = m)]
    rw [Nat.testBit_land, Nat.testBit_to_div_mod, Nat.testBit_to_div_mod, e1, e2]
    have : decide (t + (j + 1) ≠ t) = true := by simp
    rw [this, Bool.true_and, Bool.and_self]

/-- C8.  `pop_lsb` requires a non-empty bitboard: on `b ≠ 0` (below `2^64`)
it returns the index of the least significant set bit — an index in
`[0, 64)` below which every bit of `b` is clear — and stores `b & (b - 1)`,
which is `b` with exactly that bit cleared.  On the empty bitboard
`trailing_zeros` is 64, not a valid square index (and the `b - 1` is a u64
underflow), so non-emptiness is a precondition of every caller. -/
theorem spec_pop_lsb :
    Bitboard.lsb 0 = 64 ∧ (Bitboard.pop_lsb 0).1 = 64 ∧
    ∀ b : Nat, b ≠ 0 → b < 2 ^ 64 →
      (Bitboard.pop_lsb b).1 < 64 ∧
      Nat.testBit b (Bitboard.pop_lsb b).1 = true ∧
      (∀ j, j < (Bitboard.pop_lsb b).1 → Nat.testBit b j = false) ∧
      (Bitboard.pop_lsb b).2 = b &&& (b - 1) ∧
      (∀ i, Nat.testBit (Bitboard.pop_lsb b).2 i =
        (decide (i ≠ (Bitboard.pop_lsb b).1) && Nat.testBit b i)) := by
  refine ⟨by decide, by decide, fun b hb hlt => ?_⟩
  obtain ⟨h1, h2, h3⟩ := trailing_zeros_spec b hb hlt
  have hwrap : (b + 0xFFFFFFFFFFFFFFFF) % 2 ^ 64 = b - 1 := by omega
  have hsnd : (Bitboard.pop_lsb b).2 = b &&& (b - 1) := by
    show b &&& (b + 0xFFFFFFFFFFFFFFFF) % 2 ^ 64 = b &&& (b - 1)
    rw [hwrap]
  exact ⟨h1, h2, h3, hsnd, fun i => by
    rw [hsnd]
    exact land_pred_testBit b (trailing_zeros b) h2 h3 i⟩

/-- Witness for C8 at `b = 0b1101000`. -/
theorem spec_pop_lsb_witness :
    (104 : Nat) ≠ 0 ∧ (104 : Nat) < 2 ^ 64 ∧ (Bitboard.pop_lsb 104).1 < 64 :=
  ⟨by decide, by decide, (spec_pop_lsb.2.2 104 (by decide) (by decide)).1⟩

/-! ## Claim C9: `MoveList::push` -/

/-- A successful push appends to the iteration view. -/
theorem MoveList.iter_push {ml : MoveList} {m : Move} (h : ml.count < 256) :
    ∃ ml2, ml.push m = some ml2 ∧ ml2.count = ml.count + 1 ∧
      ml2.moves ml.count = m ∧ (∀ i, i ≠ ml.count → ml2.moves i = ml.moves i) ∧
      ml2.iter = ml.iter ++ [m] := by
  refine ⟨{ moves := Function.update ml.moves ml.count m, count := ml.count + 1 },
    by rw [MoveList.push, if_pos h], rfl, Function.update_same _ _ _,
    fun i hi => Function.update_noteq hi _ _, ?_⟩
  show (List.range (ml.count + 1)).map (Function.update ml.moves ml.count m) = _
  rw [List.range_succ, List.map_append]
  congr 1
  · apply List.map_congr_left
    intro i hi
    rw [List.mem_range] at hi
    exact Function.update_noteq (by omega) _ _
  · show [Function.update ml.moves ml.count m ml.count] = [m]
    rw [Function.update_same]

/-- Pushing a short enough list of moves succeeds and extends the
iteration view in order. -/
theorem MoveList.pushList_spec (ms : List Move) : ∀ ml : MoveList,
    ml.count + ms.length ≤ 256 →
    ∃ ml2, ml.pushList ms = some ml2 ∧ ml2.count = ml.count + ms.length ∧
      ml2.iter = ml.iter ++ ms := by
  induction ms with
  | nil =>
    intro ml _
    exact ⟨ml, rfl, by simp, by simp [MoveList.iter]⟩
  | cons m ms ih =>
    intro ml hlen
    obtain ⟨ml2, hp, hc, _, _, hiter⟩ := MoveList.iter_push
      (show ml.count < 256 by simp at hlen; omega) (m := m)
    obtain ⟨ml3, hp3, hc3, hiter3⟩ := ih ml2 (by simp at hlen ⊢; omega)
    refine ⟨ml3, ?_, by simp at hlen ⊢; omega, ?_⟩
    · show (match ml.push m with
        | some ml2 => ml2.pushList ms
        | none => none) = some ml3
      rw [hp]
      exact hp3
    · rw [hiter3, hiter, List.append_assoc]
      rfl

/-- C9.  `MoveList::push` has the precondition `count < 256`: within the
capacity it stores the move at index `count`, increments `count`, and
leaves all other entries unchanged, so pushing at most 256 moves onto a
fresh list yields them back, in push order, from `iter`; at `count = 256`
the unchecked array index panics (the `none` of the model). -/
theorem spec_movelist_push :
    (∀ (ml : MoveList) (m : Move), ml.count < 256 →
      ∃ ml2, ml.push m = some ml2 ∧ ml2.count = ml.count + 1 ∧
        ml2.moves ml.count = m ∧ (∀ i, i ≠ ml.count → ml2.moves i = ml.moves i) ∧
        ml2.iter = ml.iter ++ [m]) ∧
    (∀ ms : List Move, ms.length ≤ 256 →
      ∃ ml2, MoveList.nil.pushList ms = some ml2 ∧ ml2.iter = ms) ∧
    (∀ (ml : MoveList) (m : Move), ml.count = 256 → ml.push m = none) := by
  refine ⟨fun ml m h => MoveList.iter_push h,
    fun ms hlen => ?_,
    fun ml m h => by rw [MoveList.push, if_neg (by omega)]⟩
  obtain ⟨ml2, hp, _, hiter⟩ := MoveList.pushList_spec ms MoveList.nil
    (by show 0 + ms.length ≤ 256; omega)
  refine ⟨ml2, hp, ?_⟩
  rw [hiter]
  rfl

/-- Witness for C9: two pushes onto a fresh list yield both moves. -/
theorem spec_movelist_push_witness :
    ([Move.new_normal 8 16, Move.new_normal 8 24].length ≤ 256) ∧
      ∃ ml2, MoveList.nil.pushList [Move.new_normal 8 16, Move.new_normal 8 24] = some ml2 ∧
        ml2.iter = [Move.new_normal 8 16, Move.new_normal 8 24] :=
  ⟨by decide, spec_movelist_push.2.1 [Move.new_normal 8 16, Move.new_normal 8 24] (by decide)⟩

/-! ## Claims C1 and C2: the promotion-unmake color bug

`unmake_move` restores the pawn of a promotion as
`Piece::new(!self.side_to_move, Pawn)` *after* flipping the side to move
back, so the pawn it writes into `mailbox[from]` has the opponent's color.
The bitboards are updated with the correct masks, so after make + unmake
every field is restored except the mailbox origin square, which holds a
wrong-colored pawn — contradicting both the bit-identical-restore contract
and the mailbox/bitboard consistency invariant. -/

/-- C1 (failing input).  In the legal position `1k6/P7/8/8/8/8/8/K7 w`,
the generated pseudo-legal promotion a7a8=Q, after `make_move` followed by
`unmake_move`, leaves a *black* pawn in `mailbox[a7]` where the white pawn
stood: the board is not restored bit-identically. -/
theorem spec_make_unmake_promotion_bug :
    (from_fen BoardState.dflt promoFen).1 = FenOutcome.ok ∧
    posInvariant promoBoard = true ∧
    promoMove ∈ generate_all_moves refSlider promoBoard ∧
    promoBoard.mailbox 48 = some (Piece.new .White .Pawn) ∧
    (unmake_move (make_move promoBoard promoMove) promoMove).mailbox 48 =
      some (Piece.new .Black .Pawn) := by
  refine ⟨by decide, by decide, by decide, by decide, by decide⟩

/-- C2 (failing input).  Same position and move: the consistency invariant
holds before the move and after `make_move`, but is violated after
`unmake_move` (the mailbox pawn color at a7 no longer matches the color
bitboards). -/
theorem spec_invariant_unmake_bug :
    (from_fen BoardState.dflt promoFen).1 = FenOutcome.ok ∧
    posInvariant promoBoard = true ∧
    promoMove ∈ generate_all_moves refSlider promoBoard ∧
    posInvariant (make_move promoBoard promoMove) = true ∧
    posInvariant (unmake_move (make_move promoBoard promoMove) promoMove) = false := by
  refine ⟨by decide, by decide, by decide, by decide, by decide⟩

/-! ## Claim C7: perft of the starting position -/

/-- C7.  For slider tables that satisfy the magic-lookup correctness
property (the conclusion of the magic-table theorem, claim C3), `perft`
returns 1 at depth 0 on every position, and after `from_fen` of the
standard starting FEN succeeds on a fresh board, `perft` at depth 1 is
exactly 20. -/
theorem spec_perft_startpos (T : SliderAtt)
    (hR : ∀ sq occ, T.rook sq occ =
      sliding_attack sq ROOK_DELTAS (occ &&& relevant_occupancy_mask sq ROOK_DELTAS))
    (hB : ∀ sq occ, T.bishop sq occ =
      sliding_attack sq BISHOP_DELTAS (occ &&& relevant_occupancy_mask sq BISHOP_DELTAS)) :
    (∀ b : BoardState, perft T b 0 = (1, b)) ∧
    (from_fen BoardState.dflt startFen).1 = FenOutcome.ok ∧
    (perft T startBoard 1).1 = 20 := by
  have hT : T = refSlider := by
    obtain ⟨tr, tb⟩ := T
    have h1 : tr = refSlider.rook := funext fun sq => funext fun occ => hR sq occ
    have h2 : tb = refSlider.bishop := funext fun sq => funext fun occ => hB sq occ
    rw [show refSlider = ⟨refSlider.rook, refSlider.bishop⟩ from rfl, h1, h2]
  rw [hT]
  exact ⟨fun b => rfl, by decide, by decide⟩

/-- Witness for C7: the reference ray-walk tables satisfy the hypotheses
definitionally, and the depth-1 count is 20. -/
theorem spec_perft_startpos_witness :
    (∀ sq occ, refSlider.rook sq occ =
      sliding_attack sq ROOK_DELTAS (occ &&& relevant_occupancy_mask sq ROOK_DELTAS)) ∧
    (perft refSlider startBoard 1).1 = 20 :=
  ⟨fun _ _ => rfl,
    (spec_perft_startpos refSlider (fun _ _ => rfl) (fun _ _ => rfl)).2.2⟩

/-! ## Claim C10: missing FEN fields default -/

/-- C10.  `from_fen` accepts FEN strings with fewer than six fields: a
string whose fields are `[board, side]` parses exactly like one with
`[board, side, "-", "-", "0", "1"]` (and similarly for three, four, and
five fields, defaulting the absent castling, en-passant, halfmove, and
fullmove fields to "-", "-", "0", "1"), so only the board and side fields
are required for success; and a present halfmove field that does not parse
as a non-negative integer is treated as 0 rather than rejected. -/
theorem spec_fen_defaults :
    (∀ (b : BoardState) (s1 s2 bp sp : List Char),
      splitWhitespace s1 = [bp, sp] →
      splitWhitespace s2 = [bp, sp, ['-'], ['-'], ['0'], ['1']] →
      from_fen b s1 = from_fen b s2) ∧
    (∀ (b : BoardState) (s1 s2 bp sp cp : List Char),
      splitWhitespace s1 = [bp, sp, cp] →
      splitWhitespace s2 = [bp, sp, cp, ['-'], ['0'], ['1']] →
      from_fen b s1 = from_fen b s2) ∧
    (∀ (b : BoardState) (s1 s2 bp sp cp ep : List Char),
      splitWhitespace s1 = [bp, sp, cp, ep] →
      splitWhitespace s2 = [bp, sp, cp, ep, ['0'], ['1']] →
      from_fen b s1 = from_fen b s2) ∧
    (∀ (b : BoardState) (s1 s2 bp sp cp ep hp : List Char),
      splitWhitespace s1 = [bp, sp, cp, ep, hp] →
      splitWhitespace s2 = [bp, sp, cp, ep, hp, ['1']] →
      from_fen b s1 = from_fen b s2) ∧
    (∀ (b : BoardState) (s1 s2 bp sp cp ep hp : List Char),
      splitWhitespace s1 = [bp, sp, cp, ep, hp] →
      splitWhitespace s2 = [bp, sp, cp, ep, ['0']] →
      parseUsize hp = none →
      from_fen b s1 = from_fen b s2) := by
  refine ⟨?_, ?_, ?_, ?_, ?_⟩
  · intro b s1 s2 bp sp h1 h2
    unfold from_fen
    rw [h1, h2]
    rfl
  · intro b s1 s2 bp sp cp h1 h2
    unfold from_fen
    rw [h1, h2]
    rfl
  · intro b s1 s2 bp sp cp ep h1 h2
    unfold from_fen
    rw [h1, h2]
    rfl
  · intro b s1 s2 bp sp cp ep hp h1 h2
    unfold from_fen
    rw [h1, h2]
    rfl
  · intro b s1 s2 bp sp cp ep hp h1 h2 hu
    unfold from_fen
    rw [h1, h2]
    dsimp only
    simp only [List.getD_cons_succ, List.getD_cons_zero]
    rw [hu]
    rfl

/-- Witness for C10: a two-field FEN parses exactly like its six-field
completion. -/
theorem spec_fen_defaults_witness :
    splitWhitespace "8/8/8/8/8/8/8/8 w".toList = ["8/8/8/8/8/8/8/8".toList, ['w']] ∧
    from_fen BoardState.dflt "8/8/8/8/8/8/8/8 w".toList =
      from_fen BoardState.dflt "8/8/8/8/8/8/8/8 w - - 0 1".toList :=
  ⟨by decide,
    spec_fen_defaults.1 BoardState.dflt "8/8/8/8/8/8/8/8 w".toList
      "8/8/8/8/8/8/8/8 w - - 0 1".toList "8/8/8/8/8/8/8/8".toList ['w']
      (by decide) (by decide)⟩

/-! ## Claim C5: board state left behind by `from_fen` errors -/

/-- The rank loop never touches the side to move, the state stack, or the
state index. -/
theorem parseRank_frame (rn : Nat) : ∀ (chars : List Char) (file : Nat) (b : BoardState),
    (∀ f c, parseRank rn chars file b = .ok (f, c) →
      c.side_to_move = b.side_to_move ∧ c.state_stack = b.state_stack ∧
        c.state_idx = b.state_idx) ∧
    (∀ o c, parseRank rn chars file b = .error (o, c) →
      c.side_to_move = b.side_to_move ∧ c.state_stack = b.state_stack ∧
        c.state_idx = b.state_idx) := by
  intro chars
  induction chars with
  | nil =>
    intro file b
    exact ⟨fun f c h => by cases h; exact ⟨rfl, rfl, rfl⟩, fun o c h => by cases h⟩
  | cons ch rest ih =>
    intro file b
    have hunf : parseRank rn (ch :: rest) file b =
        (if ch.isDigit then parseRank rn rest ((file + (ch.toNat - 48)) % 2 ^ 32) b
         else
           match Piece.from_char ch with
           | none => .error (.crash, b)
           | some piece =>
             if (rn * 8 + file) % 2 ^ 64 < 64 then
               parseRank rn rest ((file + 1) % 2 ^ 32)
                 (placePiece b ((rn * 8 + file) % 2 ^ 64) piece)
             else .error (.crash, b)) := rfl
    rw [hunf]
    by_cases hd : ch.isDigit
    · rw [if_pos hd]
      exact ih _ b
    · rw [if_neg hd]
      cases hc : Piece.from_char ch with
      | none =>
        dsimp only
        refine ⟨fun f c h => ?_, fun o c h => ?_⟩
        · cases h
        · cases h
          exact ⟨rfl, rfl, rfl⟩
      | some piece =>
        dsimp only
        by_cases hsq : (rn * 8 + file) % 2 ^ 64 < 64
        · rw [if_pos hsq]
          exact ih _ _
        · rw [if_neg hsq]
          refine ⟨fun f c h => ?_, fun o c h => ?_⟩
          · cases h
          · cases h
            exact ⟨rfl, rfl, rfl⟩

/-- The rank iteration never touches the side to move, the state stack, or
the state index. -/
theorem parseRanks_frame : ∀ (ranks : List (List Char)) (idx : Nat) (b : BoardState),
    (∀ c, parseRanks ranks idx b = .ok c →
      c.side_to_move = b.side_to_move ∧ c.state_stack = b.state_stack ∧
        c.state_idx = b.state_idx) ∧
    (∀ o c, parseRanks ranks idx b = .error (o, c) →
      c.side_to_move = b.side_to_move ∧ c.state_stack = b.state_stack ∧
        c.state_idx = b.state_idx) := by
  intro ranks
  induction ranks with
  | nil =>
    intro idx b
    exact ⟨fun c h => by cases h; exact ⟨rfl, rfl, rfl⟩, fun o c h => by cases h⟩
  | cons rank rest ih =>
    intro idx b
    have hunf : parseRanks (rank :: rest) idx b =
        (match parseRank ((7 + 2 ^ 64 - idx % 2 ^ 64) % 2 ^ 64) rank 0 b with
         | Except.error e => Except.error e
         | Except.ok fb =>
           if fb.1 ≠ 8 then Except.error (FenOutcome.err "Invalid FEN rank length", fb.2)
           else parseRanks rest (idx + 1) fb.2) := rfl
    rw [hunf]
    cases hpr : parseRank ((7 + 2 ^ 64 - idx % 2 ^ 64) % 2 ^ 64) rank 0 b with
    | error e =>
      dsimp only
      refine ⟨fun c h => ?_, fun o c h => ?_⟩
      · cases h
      · cases h
        exact (parseRank_frame _ rank 0 b).2 o c (by rw [hpr])
    | ok fb =>
      dsimp only
      obtain ⟨f1, f2, f3⟩ := (parseRank_frame _ rank 0 b).1 fb.1 fb.2
        (by rw [hpr])
      by_cases h8 : fb.1 ≠ 8
      · rw [if_pos h8]
        refine ⟨fun c h => ?_, fun o c h => ?_⟩
        · cases h
        · cases h
          exact ⟨f1, f2, f3⟩
      · rw [if_neg h8]
        refine ⟨fun c h => ?_, fun o c h => ?_⟩
        · obtain ⟨e1, e2, e3⟩ := (ih (idx + 1) fb.2).1 c h
          exact ⟨e1.trans f1, e2.trans f2, e3.trans f3⟩
        · obtain ⟨e1, e2, e3⟩ := (ih (idx + 1) fb.2).2 o c h
          exact ⟨e1.trans f1, e2.trans f2, e3.trans f3⟩

/-- The rank loop's outcome and its effect on the mailbox and bitboards
depend only on the input's mailbox and bitboards (not on the rest of the
board it is threaded through). -/
theorem parseRank_cong (rn : Nat) : ∀ (chars : List Char) (file : Nat) (b b' : BoardState),
    b.mailbox = b'.mailbox → b.pieces = b'.pieces → b.colors = b'.colors →
    (∀ f c, parseRank rn chars file b = .ok (f, c) →
      ∃ c', parseRank rn chars file b' = .ok (f, c') ∧
        c.mailbox = c'.mailbox ∧ c.pieces = c'.pieces ∧ c.colors = c'.colors) ∧
    (∀ o c, parseRank rn chars file b = .error (o, c) →
      ∃ c', parseRank rn chars file b' = .error (o, c') ∧
        c.mailbox = c'.mailbox ∧ c.pieces = c'.pieces ∧ c.colors = c'.colors) := by
  intro chars
  induction chars with
  | nil =>
    intro file b b' hm hp hc
    refine ⟨fun f c h => ?_, fun o c h => ?_⟩
    · cases h
      exact ⟨b', rfl, hm, hp, hc⟩
    · cases h
  | cons ch rest ih =>
    intro file b b' hm hp hc
    have hunf : ∀ bb : BoardState, parseRank rn (ch :: rest) file bb =
        (if ch.isDigit then parseRank rn rest ((file + (ch.toNat - 48)) % 2 ^ 32) bb
         else
           match Piece.from_char ch with
           | none => .error (.crash, bb)
           | some piece =>
             if (rn * 8 + file) % 2 ^ 64 < 64 then
               parseRank rn rest ((file + 1) % 2 ^ 32)
                 (placePiece bb ((rn * 8 + file) % 2 ^ 64) piece)
             else .error (.crash, bb)) := fun _ => rfl
    rw [hunf b, hunf b']
    by_cases hd : ch.isDigit
    · rw [if_pos hd, if_pos hd]
      exact ih _ b b' hm hp hc
    · rw [if_neg hd, if_neg hd]
      cases hcc : Piece.from_char ch with
      | none =>
        dsimp only
        refine ⟨fun f c h => ?_, fun o c h => ?_⟩
        · cases h
        · cases h
          exact ⟨b', rfl, hm, hp, hc⟩
      | some piece =>
        dsimp only
        by_cases hsq : (rn * 8 + file) % 2 ^ 64 < 64
        · rw [if_pos hsq, if_pos hsq]
          apply ih
          · show Function.update b.mailbox _ _ = Function.update b'.mailbox _ _
            rw [hm]
          · show Function.update b.pieces _ (b.pieces _ ||| _) =
              Function.update b'.pieces _ (b'.pieces _ ||| _)
            rw [hp]
          · show Function.update b.colors _ (b.colors _ ||| _) =
              Function.update b'.colors _ (b'.colors _ ||| _)
            rw [hc]
        · rw [if_neg hsq, if_neg hsq]
          refine ⟨fun f c h => ?_, fun o c h => ?_⟩
          · cases h
          · cases h
            exact ⟨b', rfl, hm, hp, hc⟩

/-- Congruence of the rank iteration in the mailbox and bitboard fields. -/
theorem parseRanks_cong : ∀ (ranks : List (List Char)) (idx : Nat) (b b' : BoardState),
    b.mailbox = b'.mailbox → b.pieces = b'.pieces → b.colors = b'.colors →
    (∀ c, parseRanks ranks idx b = .ok c →
      ∃ c', parseRanks ranks idx b' = .ok c' ∧
        c.mailbox = c'.mailbox ∧ c.pieces = c'.pieces ∧ c.colors = c'.colors) ∧
    (∀ o c, parseRanks ranks idx b = .error (o, c) →
      ∃ c', parseRanks ranks idx b' = .error (o, c') ∧
        c.mailbox = c'.mailbox ∧ c.pieces = c'.pieces ∧ c.colors = c'.colors) := by
  intro ranks
  induction ranks with
  | nil =>
    intro idx b b' hm hp hc
    refine ⟨fun c h => ?_, fun o c h => ?_⟩
    · cases h
      exact ⟨b', rfl, hm, hp, hc⟩
    · cases h
  | cons rank rest ih =>
    intro idx b b' hm hp hc
    have hunf : ∀ bb : BoardState, parseRanks (rank :: rest) idx bb =
        (match parseRank ((7 + 2 ^ 64 - idx % 2 ^ 64) % 2 ^ 64) rank 0 bb with
         | Except.error e => Except.error e
         | Except.ok fb =>
           if fb.1 ≠ 8 then Except.error (FenOutcome.err "Invalid FEN rank length", fb.2)
           else parseRanks rest (idx + 1) fb.2) := fun _ => rfl
    rw [hunf b, hunf b']
    cases hpr : parseRank ((7 + 2 ^ 64 - idx % 2 ^ 64) % 2 ^ 64) rank 0 b with
    | error e =>
      obtain ⟨c', hpr', e1, e2, e3⟩ :=
        (parseRank_cong _ rank 0 b b' hm hp hc).2 e.1 e.2 (by rw [hpr])
      rw [hpr']
      dsimp only
      refine ⟨fun c h => ?_, fun o c h => ?_⟩
      · cases h
      · cases h
        exact ⟨c', rfl, e1, e2, e3⟩
    | ok fb =>
      obtain ⟨c', hpr', e1, e2, e3⟩ :=
        (parseRank_cong _ rank 0 b b' hm hp hc).1 fb.1 fb.2 (by rw [hpr])
      rw [hpr']
      dsimp only
      by_cases h8 : fb.1 ≠ 8
      · rw [if_pos h8, if_pos h8]
        refine ⟨fun c h => ?_, fun o c h => ?_⟩
        · cases h
        · cases h
          exact ⟨c', rfl, e1, e2, e3⟩
      · rw [if_neg h8, if_neg h8]
        exact ih (idx + 1) fb.2 c' e1 e2 e3

/-- C5 (counterexample).  On the input `k7/8/8/8/8/8/8/K7 x`, `from_fen`
returns `Err("Invalid side to move")` but the position is *not* reset:
square a8 still holds the black king parsed from the board field. -/
theorem spec_fen_error_not_reset_cex :
    (from_fen BoardState.dflt sideErrFen).1 = FenOutcome.err "Invalid side to move" ∧
    (from_fen BoardState.dflt sideErrFen).2.mailbox 56 = some (Piece.new .Black .King) :=
  ⟨by decide, by decide⟩

/-- C5 (amended).  When `from_fen` fails because the board or side field is
missing (fewer than two whitespace fields), it returns that error with the
position left entirely unchanged.  Any other error is raised after the
position has been cleared: the result then has history index 0, and its
mailbox, piece, and color boards are determined by the input string alone —
they hold the partially parsed board field (which need not be empty), as
the identical outcome on a fresh default board shows. -/
theorem spec_fen_error_state :
    (∀ (b : BoardState) (s : List Char), (splitWhitespace s).length < 2 →
      (∃ msg, (from_fen b s).1 = FenOutcome.err msg) ∧ (from_fen b s).2 = b) ∧
    (∀ (b : BoardState) (s : List Char) (m : String), 2 ≤ (splitWhitespace s).length →
      (from_fen b s).1 = FenOutcome.err m →
      (from_fen b s).2.state_idx = 0 ∧
      (from_fen BoardState.dflt s).1 = FenOutcome.err m ∧
      (from_fen b s).2.mailbox = (from_fen BoardState.dflt s).2.mailbox ∧
      (from_fen b s).2.pieces = (from_fen BoardState.dflt s).2.pieces ∧
      (from_fen b s).2.colors = (from_fen BoardState.dflt s).2.colors) := by
  constructor
  · intro b s hlen
    unfold from_fen
    rcases hsp : splitWhitespace s with _ | ⟨bp, _ | ⟨sp, rest⟩⟩
    · exact ⟨⟨"FEN missing board part", rfl⟩, rfl⟩
    · exact ⟨⟨"FEN missing side to move", rfl⟩, rfl⟩
    · rw [hsp] at hlen
      simp at hlen
      omega
  · intro b s m hlen herr
    rcases hsp : splitWhitespace s with _ | ⟨bp, _ | ⟨sp, rest⟩⟩
    · rw [hsp] at hlen; simp at hlen
    · rw [hsp] at hlen; simp at hlen
    unfold from_fen at herr ⊢
    rw [hsp] at herr ⊢
    dsimp only at herr ⊢
    generalize hpr : parseRanks (splitOnSlash bp) 0 (resetB b) = pr at herr ⊢
    cases pr with
    | error e =>
      obtain ⟨c', hpr', e1, e2, e3⟩ :=
        (parseRanks_cong (splitOnSlash bp) 0 (resetB b) (resetB BoardState.dflt)
          rfl rfl rfl).2 e.1 e.2 (by rw [hpr])
      obtain ⟨_, _, f3⟩ := (parseRanks_frame (splitOnSlash bp) 0 (resetB b)).2 e.1 e.2
        (by rw [hpr])
      rw [hpr']
      dsimp only at herr ⊢
      exact ⟨f3, by rw [← herr], e1, e2, e3⟩
    | ok b1 =>
      obtain ⟨b1', hpr', e1, e2, e3⟩ :=
        (parseRanks_cong (splitOnSlash bp) 0 (resetB b) (resetB BoardState.dflt)
          rfl rfl rfl).1 b1 (by rw [hpr])
      obtain ⟨_, _, f3⟩ := (parseRanks_frame (splitOnSlash bp) 0 (resetB b)).1 b1
        (by rw [hpr])
      rw [hpr']
      dsimp only at herr ⊢
      by_cases hside : sp = ['w'] ∨ sp = ['b']
      · simp only [if_pos hside] at herr ⊢
        generalize parseCastling (rest.getD 0 ['-']) 0 = pc at herr ⊢
        cases pc with
        | none =>
          dsimp only at herr ⊢
          exact ⟨f3, by rw [← herr], e1, e2, e3⟩
        | some cas =>
          dsimp only at herr ⊢
          generalize parseEp (rest.getD 1 ['-']) = pe at herr ⊢
          cases pe with
          | error out =>
            dsimp only at herr ⊢
            exact ⟨f3, by rw [← herr], e1, e2, e3⟩
          | ok epv =>
            dsimp only at herr
            cases herr
      · simp only [if_neg hside] at herr ⊢
        exact ⟨f3, by rw [← herr], e1, e2, e3⟩

/-- Witness for the amended C5, on the concrete inputs of the two parts:
the single-field string leaves the board unchanged, and the invalid-side
input gives history index 0. -/
theorem spec_fen_error_state_witness :
    ((splitWhitespace "onlyboard".toList).length < 2 ∧
      (from_fen BoardState.dflt "onlyboard".toList).2 = BoardState.dflt) ∧
    (2 ≤ (splitWhitespace sideErrFen).length ∧
      (from_fen BoardState.dflt sideErrFen).2.state_idx = 0) :=
  ⟨⟨by decide, (spec_fen_error_state.1 BoardState.dflt "onlyboard".toList (by decide)).2⟩,
   ⟨by decide, (spec_fen_error_state.2 BoardState.dflt sideErrFen "Invalid side to move"
      (by decide) (by decide)).1⟩⟩

/-! ## Claim C4: when `from_fen` errors -/

/-- The rank loop agrees with the spec-side rank classification. -/
theorem parseRank_class (rn : Nat) : ∀ (chars : List Char) (file : Nat) (b : BoardState),
    (∀ f c, parseRank rn chars file b = .ok (f, c) → rankClass rn chars file = .total f) ∧
    (∀ o c, parseRank rn chars file b = .error (o, c) →
      o = .crash ∧ rankClass rn chars file = .crashed) := by
  intro chars
  induction chars with
  | nil =>
    intro file b
    exact ⟨fun f c h => by cases h; rfl, fun o c h => by cases h⟩
  | cons ch rest ih =>
    intro file b
    have hunf : parseRank rn (ch :: rest) file b =
        (if ch.isDigit then parseRank rn rest ((file + (ch.toNat - 48)) % 2 ^ 32) b
         else
           match Piece.from_char ch with
           | none => .error (.crash, b)
           | some piece =>
             if (rn * 8 + file) % 2 ^ 64 < 64 then
               parseRank rn rest ((file + 1) % 2 ^ 32)
                 (placePiece b ((rn * 8 + file) % 2 ^ 64) piece)
             else .error (.crash, b)) := rfl
    have hunfc : rankClass rn (ch :: rest) file =
        (if ch.isDigit then rankClass rn rest ((file + (ch.toNat - 48)) % 2 ^ 32)
         else if (Piece.from_char ch).isSome ∧ (rn * 8 + file) % 2 ^ 64 < 64 then
           rankClass rn rest ((file + 1) % 2 ^ 32)
         else .crashed) := rfl
    rw [hunf, hunfc]
    by_cases hd : ch.isDigit
    · rw [if_pos hd, if_pos hd]
      exact ih _ b
    · rw [if_neg hd, if_neg hd]
      cases hcc : Piece.from_char ch with
      | none =>
        dsimp only
        rw [if_neg (by simp [hcc])]
        refine ⟨fun f c h => ?_, fun o c h => ?_⟩
        · cases h
        · cases h
          exact ⟨rfl, rfl⟩
      | some piece =>
        dsimp only
        by_cases hsq : (rn * 8 + file) % 2 ^ 64 < 64
        · rw [if_pos hsq, if_pos (by simp [hcc]; omega)]
          exact ih _ _
        · rw [if_neg hsq, if_neg (by simp [hcc]; omega)]
          refine ⟨fun f c h => ?_, fun o c h => ?_⟩
          · cases h
          · cases h
            exact ⟨rfl, rfl⟩

/-- The rank iteration agrees with the spec-side board classification. -/
theorem parseRanks_class : ∀ (ranks : List (List Char)) (idx : Nat) (b : BoardState),
    (∀ c, parseRanks ranks idx b = .ok c → boardClass ranks idx = none) ∧
    (∀ o c, parseRanks ranks idx b = .error (o, c) → boardClass ranks idx = some o) := by
  intro ranks
  induction ranks with
  | nil =>
    intro idx b
    exact ⟨fun c h => rfl, fun o c h => by cases h⟩
  | cons rank rest ih =>
    intro idx b
    have hunf : parseRanks (rank :: rest) idx b =
        (match parseRank ((7 + 2 ^ 64 - idx % 2 ^ 64) % 2 ^ 64) rank 0 b with
         | Except.error e => Except.error e
         | Except.ok fb =>
           if fb.1 ≠ 8 then Except.error (FenOutcome.err "Invalid FEN rank length", fb.2)
           else parseRanks rest (idx + 1) fb.2) := rfl
    have hunfc : boardClass (rank :: rest) idx =
        (match rankClass ((7 + 2 ^ 64 - idx % 2 ^ 64) % 2 ^ 64) rank 0 with
         | .crashed => some .crash
         | .total f =>
           if f ≠ 8 then some (.err "Invalid FEN rank length")
           else boardClass rest (idx + 1)) := rfl
    rw [hunf, hunfc]
    cases hpr : parseRank ((7 + 2 ^ 64 - idx % 2 ^ 64) % 2 ^ 64) rank 0 b with
    | error e =>
      obtain ⟨o1, c1⟩ := e
      obtain ⟨ho, hcl⟩ := (parseRank_class _ rank 0 b).2 o1 c1 hpr
      rw [hcl]
      dsimp only
      refine ⟨fun c h => ?_, fun o c h => ?_⟩
      · cases h
      · cases h
        rw [ho]
    | ok fb =>
      have hcl := (parseRank_class _ rank 0 b).1 fb.1 fb.2 (by rw [hpr])
      rw [hcl]
      dsimp only
      by_cases h8 : fb.1 ≠ 8
      · rw [if_pos h8, if_pos h8]
        refine ⟨fun c h => ?_, fun o c h => ?_⟩
        · cases h
        · cases h
          rfl
      · rw [if_neg h8, if_neg h8]
        exact ih (idx + 1) fb.2

/-- The castling loop agrees with the spec-side castling field check. -/
theorem parseCastling_class : ∀ (cs : List Char) (c0 : Nat),
    (∀ v, parseCastling cs c0 = some v → castlingClass cs = true) ∧
    (parseCastling cs c0 = none → castlingClass cs = false) := by
  intro cs
  induction cs with
  | nil =>
    intro c0
    exact ⟨fun v _ => rfl, fun h => by cases h⟩
  | cons ch rest ih =>
    intro c0
    have hcc : castlingClass (ch :: rest) =
        (decide (ch = 'K' ∨ ch = 'Q' ∨ ch = 'k' ∨ ch = 'q' ∨ ch = '-') &&
          castlingClass rest) := by
      simp [castlingClass]
    have hunf : parseCastling (ch :: rest) c0 =
        (if ch = 'K' then parseCastling rest (c0 ||| 1)
         else if ch = 'Q' then parseCastling rest (c0 ||| 2)
         else if ch = 'k' then parseCastling rest (c0 ||| 4)
         else if ch = 'q' then parseCastling rest (c0 ||| 8)
         else if ch = '-' then parseCastling rest c0
         else none) := rfl
    rw [hunf, hcc]
    by_cases h1 : ch = 'K'
    · rw [if_pos h1, decide_eq_true (Or.inl h1), Bool.true_and]
      exact ih _
    rw [if_neg h1]
    by_cases h2 : ch = 'Q'
    · rw [if_pos h2, decide_eq_true (Or.inr (Or.inl h2)), Bool.true_and]
      exact ih _
    rw [if_neg h2]
    by_cases h3 : ch = 'k'
    · rw [if_pos h3, decide_eq_true (Or.inr (Or.inr (Or.inl h3))), Bool.true_and]
      exact ih _
    rw [if_neg h3]
    by_cases h4 : ch = 'q'
    · rw [if_pos h4, decide_eq_true (Or.inr (Or.inr (Or.inr (Or.inl h4)))), Bool.true_and]
      exact ih _
    rw [if_neg h4]
    by_cases h5 : ch = '-'
    · rw [if_pos h5, decide_eq_true (Or.inr (Or.inr (Or.inr (Or.inr h5)))), Bool.true_and]
      exact ih _
    rw [if_neg h5, decide_eq_false (by simp [h1, h2, h3, h4, h5]), Bool.false_and]
    refine ⟨fun v h => ?_, fun _ => rfl⟩
    cases h

/-- The en-passant field parse agrees with its spec-side classification. -/
theorem parseEp_class (p : List Char) :
    (∀ v, parseEp p = .ok v → epClass p = none) ∧
    (∀ o, parseEp p = .error o → epClass p = some o) := by
  unfold parseEp epClass
  by_cases hm : p = ['-']
  · rw [if_pos hm, if_pos hm]
    exact ⟨fun v h => rfl, fun o h => by cases h⟩
  rw [if_neg hm, if_neg hm]
  match p with
  | [] =>
    dsimp only
    refine ⟨fun v h => ?_, fun o h => ?_⟩
    · cases h
    · cases h
      rfl
  | [c0] =>
    dsimp only
    refine ⟨fun v h => ?_, fun o h => ?_⟩
    · cases h
    · cases h
      rfl
  | c0 :: c1 :: rest =>
    dsimp only
    by_cases hc : 7 < (c0.toNat % 256 + 256 - 97) % 256 ∨ 7 < (c1.toNat % 256 + 256 - 49) % 256
    · rw [if_pos hc, if_pos hc]
      refine ⟨fun v h => ?_, fun o h => ?_⟩
      · cases h
      · cases h
        rfl
    · rw [if_neg hc, if_neg hc]
      refine ⟨fun v h => rfl, fun o h => ?_⟩
      cases h

/-- C4 (counterexample).  The claim includes
`Err("Invalid en passant square")` for an en-passant field *shorter than two
characters*, but on `8/8/8/8/8/8/8/8 w - e` the code indexes `bytes[1]` out
of bounds and panics instead of returning that error. -/
theorem spec_fen_errors_cex :
    (from_fen BoardState.dflt epCrashFen).1 = FenOutcome.crash ∧
    FenOutcome.crash ≠ FenOutcome.err "Invalid en passant square" :=
  ⟨by decide, by decide⟩

/-- C4 (amended).  `from_fen`'s outcome — each textual error, success, or a
panic — is exactly `fenClass`: the two missing-field errors on fewer than
two fields; `Invalid FEN rank length` when a rank of the board field
completes with a file total other than 8, provided every character is a
digit or a recognized piece letter placed inside the board (an unknown
letter or an out-of-board placement panics first); `Invalid side to move`
and `Invalid castling` as listed; and `Invalid en passant square` when the
field (other than `-`) has at least two characters whose first two do not
form a square `a1..h8` — a one-character field panics instead, and
characters after the second are ignored. -/
theorem spec_fen_errors (b : BoardState) (s : List Char) :
    (from_fen b s).1 = fenClass s := by
  unfold from_fen fenClass
  generalize splitWhitespace s = ps
  match ps with
  | [] => rfl
  | [x] => rfl
  | bp :: sp :: rest =>
    dsimp only
    generalize hpr : parseRanks (splitOnSlash bp) 0 (resetB b) = pr
    cases pr with
    | error e =>
      obtain ⟨o, c⟩ := e
      rw [(parseRanks_class (splitOnSlash bp) 0 (resetB b)).2 o c hpr]
    | ok b1 =>
      rw [(parseRanks_class (splitOnSlash bp) 0 (resetB b)).1 b1 hpr]
      dsimp only
      by_cases hside : sp = ['w'] ∨ sp = ['b']
      · rw [if_pos hside, if_pos hside]
        generalize hpc : parseCastling (rest.getD 0 ['-']) 0 = pc
        cases pc with
        | none =>
          rw [(parseCastling_class (rest.getD 0 ['-']) 0).2 hpc]
          simp only [Bool.false_eq_true, if_false]
        | some v =>
          rw [(parseCastling_class (rest.getD 0 ['-']) 0).1 v hpc]
          simp only [if_true]
          generalize hpe : parseEp (rest.getD 1 ['-']) = pe
          cases pe with
          | error o =>
            rw [(parseEp_class (rest.getD 1 ['-'])).2 o hpe]
          | ok v2 =>
            rw [(parseEp_class (rest.getD 1 ['-'])).1 v2 hpe]
      · rw [if_neg hside, if_neg hside]

/-! ## Claim C3: magic-table lookups equal the reference ray walk -/

/-- A bitboard has a nonzero intersection with a single-bit mask iff that
bit is set. -/
theorem land_two_pow_ne_zero (s i : Nat) : s &&& (1 <<< i) ≠ 0 ↔ s.testBit i = true := by
  have h2 : (1 : Nat) <<< i = 2 ^ i := by rw [Nat.shiftLeft_eq, Nat.one_mul]
  rw [h2]
  constructor
  · intro hne
    by_contra hbit
    apply hne
    apply Nat.eq_of_testBit_eq
    intro j
    rw [Nat.testBit_land, Nat.zero_testBit]
    by_cases hj : j = i
    · subst hj
      simp [Bool.eq_false_iff.mpr hbit]
    · simp [Nat.testBit_two_pow_of_ne (fun h => hj h.symm)]
  · intro hbit hz
    have : Nat.testBit (s &&& 2 ^ i) i = false := by rw [hz]; exact Nat.zero_testBit i
    rw [Nat.testBit_land, hbit, Nat.testBit_two_pow_self] at this
    simp at this

/-- `scatterBits` computes the bit-consuming scatter. -/
theorem scatterBits_eq_consume (s : Nat) : ∀ (bs : List Nat) (i0 : Nat) (acc : Nat),
    (List.enumFrom i0 bs).foldl
      (fun occ p => if s &&& (1 <<< p.1) ≠ 0 then occ ||| (1 <<< p.2) else occ) acc =
      acc ||| consumeScatter bs (s >>> i0) := by
  intro bs
  induction bs with
  | nil =>
    intro i0 acc
    show acc = acc ||| 0
    rw [Nat.or_zero]
  | cons b rest ih =>
    intro i0 acc
    rw [List.enumFrom_cons, List.foldl_cons, ih (i0 + 1)]
    show (if s &&& (1 <<< i0) ≠ 0 then acc ||| (1 <<< b) else acc) ||| consumeScatter rest (s >>> (i0 + 1)) =
      acc ||| ((if (s >>> i0) % 2 = 1 then 1 <<< b else 0) ||| consumeScatter rest (s >>> i0 / 2))
    have hdiv : s >>> i0 / 2 = s >>> (i0 + 1) := by
      rw [Nat.shiftRight_eq_div_pow, Nat.shiftRight_eq_div_pow, Nat.div_div_eq_div_mul,
        Nat.pow_succ]
    have hmod : ((s >>> i0) % 2 = 1) ↔ (s &&& (1 <<< i0) ≠ 0) := by
      rw [land_two_pow_ne_zero, Nat.testBit_to_div_mod, Nat.shiftRight_eq_div_pow]
      simp
    rw [hdiv]
    by_cases hb : s &&& (1 <<< i0) ≠ 0
    · rw [if_pos hb, if_pos (hmod.mpr hb), Nat.lor_assoc]
    · rw [if_neg hb, if_neg (fun h => hb (hmod.mp h)), Nat.zero_or]

/-- Every bitboard whose bits all lie in `bs` is hit by `consumeScatter`
from some subset index below `2 ^ |bs|`. -/
theorem consumeScatter_surj : ∀ (bs : List Nat) (y : Nat),
    (∀ t, y.testBit t = true → t ∈ bs) →
    ∃ s, s < 2 ^ bs.length ∧ consumeScatter bs s = y := by
  intro bs
  induction bs with
  | nil =>
    intro y hy
    refine ⟨0, by decide, ?_⟩
    show 0 = y
    apply Nat.eq_of_testBit_eq
    intro i
    rw [Nat.zero_testBit]
    by_contra hne
    have := hy i (by revert hne; cases y.testBit i <;> simp)
    simp at this
  | cons b rest ih =>
    intro y hy
    have h2b : (1 : Nat) <<< b = 2 ^ b := by rw [Nat.shiftLeft_eq, Nat.one_mul]
    by_cases hb : y.testBit b
    · obtain ⟨s', hs', hcs⟩ := ih (y ^^^ (1 <<< b)) (by
        intro t ht
        rw [h2b, Nat.testBit_xor] at ht
        by_cases htb : t = b
        · subst htb
          rw [hb, Nat.testBit_two_pow_self] at ht
          simp at ht
        · rw [Nat.testBit_two_pow_of_ne (fun h => htb h.symm)] at ht
          simp at ht
          have := hy t ht
          simp at this
          rcases this with h | h
          · exact absurd h htb
          · exact h)
      refine ⟨2 * s' + 1, ?_, ?_⟩
      · rw [List.length_cons, Nat.pow_succ]
        omega
      · show (if (2 * s' + 1) % 2 = 1 then 1 <<< b else 0) |||
          consumeScatter rest ((2 * s' + 1) / 2) = y
        rw [if_pos (by omega), (by omega : (2 * s' + 1) / 2 = s'), hcs]
        apply Nat.eq_of_testBit_eq
        intro t
        rw [Nat.testBit_lor, h2b, Nat.testBit_xor]
        by_cases htb : t = b
        · subst htb
          rw [Nat.testBit_two_pow_self, hb]
          rfl
        · rw [Nat.testBit_two_pow_of_ne (fun h => htb h.symm)]
          cases y.testBit t <;> rfl
    · obtain ⟨s', hs', hcs⟩ := ih y (by
        intro t ht
        have := hy t ht
        simp at this
        rcases this with h | h
        · subst h
          exact absurd ht (by simp [hb])
        · exact h)
      refine ⟨2 * s', ?_, ?_⟩
      · rw [List.length_cons, Nat.pow_succ]
        omega
      · show (if (2 * s') % 2 = 1 then 1 <<< b else 0) |||
          consumeScatter rest ((2 * s') / 2) = y
        rw [if_neg (by omega), (by omega : (2 * s') / 2 = s'), hcs, Nat.zero_or]

/-- Each ray of the relevant-mask walk stays below `2^64`. -/
theorem maskRay_lt (dr df : Int) : ∀ (fuel : Nat) (r f : Int),
    maskRay dr df fuel r f < 2 ^ 64 := by
  intro fuel
  induction fuel with
  | zero =>
    intro r f
    show 0 < 2 ^ 64
    exact Nat.pos_pow_of_pos 64 (by decide)
  | succ fuel ih =>
    intro r f
    show (if 0 ≤ r ∧ r < 8 ∧ 0 ≤ f ∧ f < 8 then
        sqBB (r * 8 + f).toNat ||| maskRay dr df fuel (r + dr) (f + df)
      else 0) < 2 ^ 64
    by_cases hin : 0 ≤ r ∧ r < 8 ∧ 0 ≤ f ∧ f < 8
    · rw [if_pos hin]
      apply Nat.or_lt_two_pow _ (ih _ _)
      show 1 <<< (r * 8 + f).toNat < 2 ^ 64
      rw [Nat.shiftLeft_eq, Nat.one_mul]
      exact Nat.pow_lt_pow_right (by decide) (by omega)
    · rw [if_neg hin]
      exact Nat.pos_pow_of_pos 64 (by decide)

/-- The fold of mask rays is a 64-bit value. -/
theorem maskFold_lt (sq : Nat) : ∀ (deltas : List (Int × Int)) (acc : Nat), acc < 2 ^ 64 →
    deltas.foldl (fun acc d =>
      acc ||| maskRay d.1 d.2 8 ((sq / 8 : Nat) + d.1) ((sq % 8 : Nat) + d.2)) acc < 2 ^ 64 := by
  intro deltas
  induction deltas with
  | nil => exact fun acc h => h
  | cons d rest ih =>
    intro acc hacc
    rw [List.foldl_cons]
    exact ih _ (Nat.or_lt_two_pow hacc (maskRay_lt d.1 d.2 8 _ _))

/-- The relevant occupancy mask is a 64-bit value. -/
theorem relevant_mask_lt (sq : Nat) (deltas : List (Int × Int)) :
    relevant_occupancy_mask sq deltas < 2 ^ 64 := by
  unfold relevant_occupancy_mask
  exact Nat.lt_of_le_of_lt Nat.and_le_left
    (maskFold_lt sq deltas 0 (Nat.pos_pow_of_pos 64 (by decide)))

/-- Every masked occupancy occurs in the enumerated occupancy list. -/
theorem enumerate_covers (mask occ : Nat) (hm : mask < 2 ^ 64) :
    (occ &&& mask) ∈ enumerate_occupancies mask := by
  have hlen : (maskBits mask).length = popcount64 mask := by
    show ((List.range 64).filter _).length = (List.range 64).countP _
    rw [← List.countP_eq_length_filter]
  have hbits : ∀ t, (occ &&& mask).testBit t = true → t ∈ maskBits mask := by
    intro t ht
    rw [Nat.testBit_land, Bool.and_eq_true] at ht
    have ht64 : t < 64 := by
      by_contra h64
      have : mask.testBit t = false :=
        Nat.testBit_lt_two_pow
          (Nat.lt_of_lt_of_le hm (Nat.pow_le_pow_right (by decide) (by omega)))
      rw [this] at ht
      simp at ht
    show t ∈ (List.range 64).filter _
    rw [List.mem_filter, List.mem_range]
    exact ⟨ht64, ht.2⟩
  obtain ⟨s, hs, hcs⟩ := consumeScatter_surj (maskBits mask) _ hbits
  show _ ∈ (List.range (2 ^ popcount64 mask)).map (fun subset => scatterBits subset (maskBits mask))
  rw [List.mem_map]
  refine ⟨s, List.mem_range.mpr (hlen ▸ hs), ?_⟩
  show (List.enum (maskBits mask)).foldl _ 0 = occ &&& mask
  rw [show List.enum (maskBits mask) = List.enumFrom 0 (maskBits mask) from rfl,
    scatterBits_eq_consume, Nat.shiftRight_zero, Nat.zero_or, hcs]

/-- The magic index is always below the per-square table size. -/
theorem magicIdx_lt (x bits : Nat) (hb : bits ≤ 64) :
    (x % 2 ^ 64) >>> (64 - bits) < 2 ^ bits := by
  rw [Nat.shiftRight_eq_div_pow]
  apply Nat.div_lt_of_lt_mul
  calc x % 2 ^ 64 < 2 ^ 64 := Nat.mod_lt _ (Nat.pos_pow_of_pos 64 (by decide))
    _ = 2 ^ (64 - bits) * 2 ^ bits := by rw [← Nat.pow_add]; congr 1; omega

/-- A successful fill keeps the table length and never clears a slot. -/
theorem fillTable_stable (mask magic shift : Nat) :
    ∀ (occs atts : List Nat) (tbl tbl2 : List (Option Nat)),
    fillTable mask magic shift occs atts tbl = some tbl2 →
    tbl2.length = tbl.length ∧
    ∀ i v, tbl.getD i none = some v → tbl2.getD i none = some v := by
  intro occs
  induction occs with
  | nil =>
    intro atts tbl tbl2 h
    cases atts <;> cases h <;> exact ⟨rfl, fun i v hv => hv⟩
  | cons o os ih =>
    intro atts tbl tbl2 h
    cases atts with
    | nil =>
      cases h
      exact ⟨rfl, fun i v hv => hv⟩
    | cons a as_ =>
      revert h
      show (match tbl.getD ((((o &&& mask) * magic) % 2 ^ 64) >>> shift) none with
        | none => fillTable mask magic shift os as_
            (tbl.set ((((o &&& mask) * magic) % 2 ^ 64) >>> shift) (some a))
        | some existing =>
          if existing = a then fillTable mask magic shift os as_ tbl
          else none) = some tbl2 → _
      cases hslot : tbl.getD ((((o &&& mask) * magic) % 2 ^ 64) >>> shift) none with
      | none =>
        intro h
        obtain ⟨hl, hst⟩ := ih as_ _ tbl2 h
        refine ⟨hl.trans (List.length_set tbl _ _), fun i v hv => ?_⟩
        apply hst
        rw [List.getD_eq_getElem?_getD] at hv ⊢
        by_cases hi : i = (((o &&& mask) * magic) % 2 ^ 64) >>> shift
        · subst hi
          rw [List.getD_eq_getElem?_getD] at hslot
          rw [hslot] at hv
          cases hv
        · rw [List.getElem?_set_ne (fun h => hi h.symm)]
          exact hv
      | some existing =>
        dsimp only
        by_cases hex : existing = a
        · rw [if_pos hex]
          exact ih as_ tbl tbl2
        · rw [if_neg hex]
          intro h
          cases h

/-- A successful fill stores the attack of every listed occupancy at its
magic index. -/
theorem fillTable_mem (mask magic shift : Nat) :
    ∀ (occs atts : List Nat) (tbl tbl2 : List (Option Nat)),
    fillTable mask magic shift occs atts tbl = some tbl2 →
    ∀ o a, (o, a) ∈ occs.zip atts →
      (((o &&& mask) * magic) % 2 ^ 64) >>> shift < tbl.length →
      tbl2.getD ((((o &&& mask) * magic) % 2 ^ 64) >>> shift) none = some a := by
  intro occs
  induction occs with
  | nil =>
    intro atts tbl tbl2 h o a hmem
    simp at hmem
  | cons o0 os ih =>
    intro atts tbl tbl2 h o a hmem hbound
    cases atts with
    | nil =>
      simp at hmem
    | cons a0 as_ =>
      rw [List.zip_cons_cons, List.mem_cons] at hmem
      revert h
      show (match tbl.getD ((((o0 &&& mask) * magic) % 2 ^ 64) >>> shift) none with
        | none => fillTable mask magic shift os as_
            (tbl.set ((((o0 &&& mask) * magic) % 2 ^ 64) >>> shift) (some a0))
        | some existing =>
          if existing = a0 then fillTable mask magic shift os as_ tbl
          else none) = some tbl2 → _
      cases hslot : tbl.getD ((((o0 &&& mask) * magic) % 2 ^ 64) >>> shift) none with
      | none =>
        intro h
        rcases hmem with heq | htail
        · have ho : o = o0 := congrArg Prod.fst heq
          have ha : a = a0 := congrArg Prod.snd heq
          subst ho
          subst ha
          have hset : (tbl.set ((((o &&& mask) * magic) % 2 ^ 64) >>> shift)
              (some a)).getD ((((o &&& mask) * magic) % 2 ^ 64) >>> shift) none = some a := by
            rw [List.getD_eq_getElem?_getD, List.getElem?_set_self hbound]
            rfl
          exact (fillTable_stable mask magic shift os as_ _ tbl2 h).2 _ _ hset
        · exact ih as_ _ tbl2 h o a htail (by rw [List.length_set]; exact hbound)
      | some existing =>
        dsimp only
        by_cases hex : existing = a0
        · rw [if_pos hex]
          intro h
          rcases hmem with heq | htail
          · have ho : o = o0 := congrArg Prod.fst heq
            have ha : a = a0 := congrArg Prod.snd heq
            subst ho
            subst ha
            refine (fillTable_stable mask magic shift os as_ tbl tbl2 h).2 _ _ ?_
            rw [hslot, hex]
          · exact ih as_ tbl tbl2 h o a htail hbound
        · rw [if_neg hex]
          intro h
          cases h

/-- The popcount of a 64-bit value is at most 64. -/
theorem popcount64_le (b : Nat) : popcount64 b ≤ 64 := by
  calc (List.range 64).countP (fun i => b.testBit i) ≤ (List.range 64).length :=
      List.countP_le_length _
    _ = 64 := List.length_range 64

/-- Pairing an element with its image lands in the zip with the map. -/
theorem mem_zip_map (f : Nat → Nat) :
    ∀ (l : List Nat) (o : Nat), o ∈ l → (o, f o) ∈ l.zip (l.map f) := by
  intro l
  induction l with
  | nil => intro o h; cases h
  | cons x xs ih =>
    intro o h
    rw [List.map_cons, List.zip_cons_cons, List.mem_cons]
    rcases List.mem_cons.mp h with heq | htail
    · exact Or.inl (by rw [heq])
    · exact Or.inr (ih o htail)

/-- A successful magic search returns a magic whose fill over the fresh
table succeeds, together with that table materialized with default 0. -/
theorem findMagic_some (mask shift : Nat) (occs atts : List Nat) (st : Nat → Nat)
    (tableSize : Nat) :
    ∀ (fuel attempt : Nat) (r : Nat × List Nat),
    findMagic mask shift occs atts st tableSize attempt fuel = some r →
    ∃ tbl, fillTable mask r.1 shift occs atts (List.replicate tableSize none) = some tbl ∧
      r.2 = tbl.map (fun o => o.getD 0) := by
  intro fuel
  induction fuel with
  | zero =>
    intro attempt r h
    cases h
  | succ fuel ih =>
    intro attempt r
    show (if popcount64 ((mask * sparse_random st attempt) % 2 ^ 64 &&& 0xFF00000000000000) < 6 then
        findMagic mask shift occs atts st tableSize (attempt + 1) fuel
      else
        match fillTable mask (sparse_random st attempt) shift occs atts
            (List.replicate tableSize none) with
        | some tbl => some (sparse_random st attempt, tbl.map (fun o => o.getD 0))
        | none => findMagic mask shift occs atts st tableSize (attempt + 1) fuel) = some r → _
    by_cases hent :
        popcount64 ((mask * sparse_random st attempt) % 2 ^ 64 &&& 0xFF00000000000000) < 6
    · rw [if_pos hent]
      exact ih (attempt + 1) r
    · rw [if_neg hent]
      cases hfill : fillTable mask (sparse_random st attempt) shift occs atts
          (List.replicate tableSize none) with
      | none =>
        dsimp only
        exact ih (attempt + 1) r
      | some tbl =>
        dsimp only
        intro h
        cases h
        exact ⟨tbl, hfill, rfl⟩

/-- A successful per-square search yields a block of size `2^bits` holding,
at every masked occupancy's magic index, the reference sliding attack. -/
theorem searchSquare_block (deltas : List (Int × Int)) (st : Nat → Nat) (sq : Nat)
    (r : Nat × List Nat) (hr : searchSquare deltas st sq = some r) (occ : Nat) :
    r.2.length = 2 ^ popcount64 (relevant_occupancy_mask sq deltas) ∧
    r.2.getD ((((occ &&& relevant_occupancy_mask sq deltas) * r.1) % 2 ^ 64) >>>
        (64 - popcount64 (relevant_occupancy_mask sq deltas))) 0 =
      sliding_attack sq deltas (occ &&& relevant_occupancy_mask sq deltas) := by
  have hr2 : findMagic (relevant_occupancy_mask sq deltas)
      (64 - popcount64 (relevant_occupancy_mask sq deltas))
      (enumerate_occupancies (relevant_occupancy_mask sq deltas))
      ((enumerate_occupancies (relevant_occupancy_mask sq deltas)).map
        (fun occ => sliding_attack sq deltas occ))
      st (2 ^ popcount64 (relevant_occupancy_mask sq deltas)) 0 10000000 = some r := hr
  obtain ⟨tbl, hfill, hblk⟩ := findMagic_some _ _ _ _ _ _ _ _ _ hr2
  have hlen : tbl.length = 2 ^ popcount64 (relevant_occupancy_mask sq deltas) := by
    have := (fillTable_stable _ _ _ _ _ _ _ hfill).1
    rw [this, List.length_replicate]
  have hmm : (occ &&& relevant_occupancy_mask sq deltas) &&& relevant_occupancy_mask sq deltas =
      occ &&& relevant_occupancy_mask sq deltas := by
    rw [Nat.and_assoc, Nat.and_self]
  have hidx : (((occ &&& relevant_occupancy_mask sq deltas) * r.1) % 2 ^ 64) >>>
      (64 - popcount64 (relevant_occupancy_mask sq deltas)) <
      2 ^ popcount64 (relevant_occupancy_mask sq deltas) :=
    magicIdx_lt _ _ (popcount64_le _)
  have hcov : (occ &&& relevant_occupancy_mask sq deltas) ∈
      enumerate_occupancies (relevant_occupancy_mask sq deltas) :=
    enumerate_covers _ _ (relevant_mask_lt sq deltas)
  have hzip := mem_zip_map (fun occ => sliding_attack sq deltas occ) _ _ hcov
  have hstore := fillTable_mem _ _ _ _ _ _ _ hfill _ _ hzip
    (by rw [List.length_replicate, hmm]; exact hidx)
  rw [hmm] at hstore
  have hidxlen : (((occ &&& relevant_occupancy_mask sq deltas) * r.1) % 2 ^ 64) >>>
      (64 - popcount64 (relevant_occupancy_mask sq deltas)) < tbl.length := by
    rw [hlen]; exact hidx
  have hcell : tbl.get ⟨_, hidxlen⟩ =
      some (sliding_attack sq deltas (occ &&& relevant_occupancy_mask sq deltas)) := by
    rw [List.getD_eq_getElem?_getD, List.getElem?_eq_getElem hidxlen] at hstore
    exact hstore
  constructor
  · rw [hblk, List.length_map, hlen]
  · rw [hblk, List.getD_eq_getElem?_getD, List.getElem?_map,
      List.getElem?_eq_getElem hidxlen]
    show ((some (tbl.get ⟨_, hidxlen⟩)).map (fun o => o.getD 0)).getD 0 = _
    rw [hcell]
    rfl

/-- Squares not in the fold list keep their magic and offset entries. -/
theorem magicLoop_frame (deltas : List (Int × Int)) (rng : Nat → Nat → Nat) :
    ∀ (l : List Nat) (s : MagicLoopState) (q : Nat), q ∉ l →
    (l.foldl (magicLoopStep deltas rng) s).magics q = s.magics q ∧
    (l.foldl (magicLoopStep deltas rng) s).offsets q = s.offsets q := by
  intro l
  induction l with
  | nil => intro s q hq; exact ⟨rfl, rfl⟩
  | cons x xs ih =>
    intro s q hq
    have hqx : q ≠ x := fun h => hq (h ▸ List.mem_cons_self x xs)
    have hqxs : q ∉ xs := fun h => hq (List.mem_cons_of_mem x h)
    rw [List.foldl_cons]
    obtain ⟨hm, ho⟩ := ih (magicLoopStep deltas rng s x) q hqxs
    refine ⟨hm.trans ?_, ho.trans ?_⟩ <;>
    · unfold magicLoopStep
      cases searchSquare deltas (rng (magicSeed x)) x with
      | none => rfl
      | some r => exact Function.update_noteq hqx _ _

/-- The fold only ever appends to the flat attack table. -/
theorem magicLoop_flat_ext (deltas : List (Int × Int)) (rng : Nat → Nat → Nat) :
    ∀ (l : List Nat) (s : MagicLoopState),
    ∃ t, (l.foldl (magicLoopStep deltas rng) s).flat = s.flat ++ t := by
  intro l
  induction l with
  | nil => intro s; exact ⟨[], (List.append_nil _).symm⟩
  | cons x xs ih =>
    intro s
    rw [List.foldl_cons]
    obtain ⟨t, ht⟩ := ih (magicLoopStep deltas rng s x)
    cases hx : searchSquare deltas (rng (magicSeed x)) x with
    | none =>
      have hstep : magicLoopStep deltas rng s x = s := by
        unfold magicLoopStep
        rw [hx]
      rw [hstep] at ht ⊢
      exact ⟨t, ht⟩
    | some r =>
      have hstep : (magicLoopStep deltas rng s x).flat = s.flat ++ r.2 := by
        unfold magicLoopStep
        rw [hx]
      rw [hstep] at ht
      refine ⟨r.2 ++ t, ?_⟩
      rw [ht, List.append_assoc]

/-- One loop step preserves the running-offset/flat-length invariant. -/
theorem magicLoopStep_inv (deltas : List (Int × Int)) (rng : Nat → Nat → Nat)
    (s : MagicLoopState) (sq : Nat) (h : s.off = s.flat.length) :
    (magicLoopStep deltas rng s sq).off = (magicLoopStep deltas rng s sq).flat.length := by
  unfold magicLoopStep
  cases searchSquare deltas (rng (magicSeed sq)) sq with
  | none => exact h
  | some r =>
    show s.off + r.2.length = (s.flat ++ r.2).length
    rw [List.length_append, h]

/-- After the fold, every successfully searched square of the list has its
magic recorded and its block laid out at its offset in the flat table. -/
theorem magicLoop_places (deltas : List (Int × Int)) (rng : Nat → Nat → Nat) :
    ∀ (l : List Nat) (s0 : MagicLoopState), s0.off = s0.flat.length → l.Nodup →
    ∀ sq, sq ∈ l → ∀ r, searchSquare deltas (rng (magicSeed sq)) sq = some r →
    (l.foldl (magicLoopStep deltas rng) s0).magics sq = r.1 ∧
    ∀ i, i < r.2.length →
      (l.foldl (magicLoopStep deltas rng) s0).flat.getD
        ((l.foldl (magicLoopStep deltas rng) s0).offsets sq + i) 0 = r.2.getD i 0 := by
  intro l
  induction l with
  | nil =>
    intro s0 _ _ sq hsq
    cases hsq
  | cons x xs ih =>
    intro s0 hinv hnd sq hsq r hr
    obtain ⟨hx_notin, hnd2⟩ := List.nodup_cons.mp hnd
    rw [List.foldl_cons]
    rcases List.mem_cons.mp hsq with heq | htail
    · subst heq
      have hstep : magicLoopStep deltas rng s0 sq =
          { magics := Function.update s0.magics sq r.1,
            offsets := Function.update s0.offsets sq s0.off,
            flat := s0.flat ++ r.2,
            off := s0.off + r.2.length } := by
        unfold magicLoopStep
        rw [hr]
      obtain ⟨hm, ho⟩ :=
        magicLoop_frame deltas rng xs (magicLoopStep deltas rng s0 sq) sq hx_notin
      obtain ⟨t, ht⟩ := magicLoop_flat_ext deltas rng xs (magicLoopStep deltas rng s0 sq)
      constructor
      · rw [hm, hstep]
        exact Function.update_same sq r.1 s0.magics
      · intro i hi
        rw [ht, ho, hstep]
        dsimp only
        rw [Function.update_same, hinv, List.append_assoc,
          List.getD_eq_getElem?_getD, List.getElem?_append_right (Nat.le_add_right _ _)]
        have hii : s0.flat.length + i - s0.flat.length = i := by omega
        rw [hii, List.getElem?_append_left hi, ← List.getD_eq_getElem?_getD]
    · exact ih (magicLoopStep deltas rng s0 x)
        (magicLoopStep_inv deltas rng s0 x hinv) hnd2 sq htail r hr

/-- C3: after `generate_magics` (modelled as `search_loop` over an abstract
RNG stream), for every square whose 10,000,000-attempt magic search
succeeds and every occupancy, the magic lookup
`flat[offsets[sq] + (((occ &&& mask[sq]) * magics[sq]) % 2^64) >>> (64 -
popcount (mask[sq]))]` equals the reference ray walk `sliding_attack sq
deltas (occ &&& mask[sq])` — for the rook and the bishop tables alike,
since `deltas` is universally quantified. -/
theorem spec_magic_lookup (deltas : List (Int × Int)) (rng : Nat → Nat → Nat) (sq : Nat)
    (hsq : sq < 64) (occ : Nat)
    (hs : (searchSquare deltas (rng (magicSeed sq)) sq).isSome = true) :
    magicLookup (search_loop deltas rng) sq occ (relevant_occupancy_mask sq deltas) =
      sliding_attack sq deltas (occ &&& relevant_occupancy_mask sq deltas) := by
  obtain ⟨r, hr⟩ := Option.isSome_iff_exists.mp hs
  obtain ⟨hblen, hbval⟩ := searchSquare_block deltas (rng (magicSeed sq)) sq r hr occ
  have hplace := magicLoop_places deltas rng (List.range 64)
    { magics := fun _ => 0, offsets := fun _ => 0, flat := [], off := 0 }
    rfl (List.nodup_range 64) sq (List.mem_range.mpr hsq) r hr
  have hmag : (search_loop deltas rng).magics sq = r.1 := hplace.1
  have hflat : ∀ i, i < r.2.length →
      (search_loop deltas rng).flat.getD ((search_loop deltas rng).offsets sq + i) 0 =
        r.2.getD i 0 := hplace.2
  have hidx : (((occ &&& relevant_occupancy_mask sq deltas) * r.1) % 2 ^ 64) >>>
      (64 - popcount64 (relevant_occupancy_mask sq deltas)) < r.2.length := by
    rw [hblen]
    exact magicIdx_lt _ _ (popcount64_le _)
  show (search_loop deltas rng).flat.getD
      ((search_loop deltas rng).offsets sq +
        (((occ &&& relevant_occupancy_mask sq deltas) * (search_loop deltas rng).magics sq)
          % 2 ^ 64) >>> (64 - popcount64 (relevant_occupancy_mask sq deltas))) 0 = _
  rw [hmag, hflat _ hidx, hbval]

/-- Witness for C3: with a constant candidate stream supplying a concrete
verified bishop magic for a1, the per-square search succeeds and the lookup
agrees with the ray walk on the empty occupancy. -/
theorem spec_magic_lookup_witness :
    (searchSquare BISHOP_DELTAS ((fun _ _ => bishopA1Magic) (magicSeed 0)) 0).isSome = true ∧
    magicLookup (search_loop BISHOP_DELTAS (fun _ _ => bishopA1Magic)) 0 0
        (relevant_occupancy_mask 0 BISHOP_DELTAS) =
      sliding_attack 0 BISHOP_DELTAS (0 &&& relevant_occupancy_mask 0 BISHOP_DELTAS) :=
  ⟨by decide,
    spec_magic_lookup BISHOP_DELTAS (fun _ _ => bishopA1Magic) 0 (by decide) 0 (by decide)⟩
